import Mathlib

/-!
Verification of the rcore kernel (qian160/rcore) against its natural-language
specification.  The Rust sources under `os/src/mm`, `os/src/syscall`,
`easy-fs/src` are shallowly embedded: machine integers become `Nat` with
explicit masks, physical memory becomes a function from page number and word
index to word value, fallible or panicking code returns `Option`.
-/

namespace RCore

/-! ## Constants (os/src/config.rs is not in the tree; values from the spec
    and from `os/src/batch.rs`) -/

/-- Page size, 4096 bytes (12 bits). -/
def PAGE_SIZE : Nat := 4096

/-- Virtual addresses are 39 bits (SV39), `address.rs`. -/
def VA_WIDTH_SV39 : Nat := 39

/-- Physical addresses are 56 bits, `address.rs`. -/
def PA_WIDTH_SV39 : Nat := 56

/-- PPN width 44 = 56 - 12, `address.rs`. -/
def PPN_WIDTH_SV39 : Nat := 44

/-- Modelled from the spec: `config.rs` is missing from the sources;
    `os/src/batch.rs` line 12 defines `MAX_APP_NUM = 16`. -/
def MAX_APP_NUM : Nat := 16

/-! ## Addresses (os/src/mm/address.rs) -/

/-- `From<usize> for VirtAddr`: keep the lower 39 bits. -/
def vaFrom (addr : Nat) : Nat := addr % 2 ^ VA_WIDTH_SV39

/-- `From<usize> for VirtPageNum`: mask to 39 bits, then shift out the
    12 offset bits. -/
def vpnFrom (addr : Nat) : Nat := vaFrom addr / PAGE_SIZE

/-- `VirtAddr::floor`. -/
def vaFloor (va : Nat) : Nat := va / PAGE_SIZE

/-- `VirtAddr::ceil`, written `(self.0 - 1 + PAGE_SIZE) / PAGE_SIZE` on
    `usize`, so the subtraction wraps at `2^64` when `self.0 = 0`
    (giving `ceil 0 = 0`). -/
def vaCeil (va : Nat) : Nat := (va + (PAGE_SIZE - 1)) % 2 ^ 64 / PAGE_SIZE

/-- `VirtAddr::page_offset`: the low 12 bits. -/
def pageOffset (va : Nat) : Nat := va % PAGE_SIZE

/-- `VirtAddr::aligned`. -/
def vaAligned (va : Nat) : Bool := pageOffset va == 0

/-- `From<VirtAddr> for usize`: sign-extend from bit 38 (SV39 requires
    bits 63..39 to equal bit 38). -/
def vaToUsize (va : Nat) : Nat :=
  if va ≥ 2 ^ (VA_WIDTH_SV39 - 1) then va ||| (2 ^ 64 - 2 ^ VA_WIDTH_SV39) else va

/-- `From<usize> for PhysPageNum` (address.rs): inputs at or above the
    (39-bit masked) address of the link symbol `ekernel` are treated as
    physical addresses and shifted, smaller inputs are already page numbers.
    `ekernel` is link-time data, passed as a parameter `ek` throughout. -/
def ppnFromUsize (ek v : Nat) : Nat :=
  if v ≥ vaFrom ek then v % 2 ^ PA_WIDTH_SV39 / PAGE_SIZE else v

/-- `VirtPageNum::indexes`: the three 9-bit levels, high to low. -/
def vpnIndexes (vpn : Nat) : Nat × Nat × Nat :=
  ((vpn >>> 18) % 512, (vpn >>> 9) % 512, vpn % 512)

/-! ## Physical memory model

Physical memory is modelled one 64-bit word per slot: `m p i` is word `i`
(0 ≤ i < 512) of page `p`.  A page-table node stores one PTE per word
(`PhysPageNum::get_pte_array`); zeroing the 4096 bytes of a page
(`get_bytes_array`) is zeroing its 512 words. -/

/-- Physical memory: page number → word index → word. -/
def Mem : Type := Nat → Nat → Nat

/-- Write one word of one page. -/
def memWrite (m : Mem) (p i v : Nat) : Mem :=
  fun q j => if q = p ∧ j = i then v else m q j

/-- Zero a whole page (frame_allocator.rs `dealloc` clears all 4096 bytes). -/
def pageZero (m : Mem) (p : Nat) : Mem :=
  fun q j => if q = p then 0 else m q j

/-! ## Page-table entries (os/src/mm/page_table.rs) -/

/-- `PageTableEntry { bits: usize }`. -/
structure PageTableEntry where
  bits : Nat
deriving DecidableEq

/-- `PageTableEntry::new(ppn, flags)`: `ppn.0 << 10 | flags.bits`. -/
def PageTableEntry.new (ppn flags : Nat) : PageTableEntry :=
  ⟨ppn <<< 10 ||| flags⟩

/-- `PageTableEntry::empty()`. -/
def PageTableEntry.empty : PageTableEntry := ⟨0⟩

/-- `PageTableEntry::flags`: the bits as `u8`. -/
def PageTableEntry.flags (pte : PageTableEntry) : Nat := pte.bits % 256

/-- `PageTableEntry::ppn`: `(bits >> 10) & ((1 << 44) - 1)`, then the
    `usize → PhysPageNum` conversion. -/
def PageTableEntry.ppn (ek : Nat) (pte : PageTableEntry) : Nat :=
  ppnFromUsize ek ((pte.bits >>> 10) % 2 ^ PPN_WIDTH_SV39)

/-- `PageTableEntry::is_valid`: flag bit V (bit 0). -/
def PageTableEntry.isValid (pte : PageTableEntry) : Bool :=
  pte.flags &&& 1 != 0

/-! ## Frame allocator (os/src/mm/frame_allocator.rs)

`recycled` is a Rust `Vec` used as a stack (push/pop at the back); the Lean
list holds the stack with its top at the head. -/

/-- `StackFrameAllocator { current, end, recycled }` (`end` is renamed
    `endp`, it is a Lean keyword). -/
structure StackFrameAllocator where
  current : Nat
  endp : Nat
  recycled : List Nat
deriving DecidableEq

/-- `StackFrameAllocator::alloc`: pop a recycled ppn (the pop goes through
    `From<usize> for PhysPageNum`) or bump `current`. `none` = out of
    frames. -/
def StackFrameAllocator.alloc (ek : Nat) (a : StackFrameAllocator) :
    Option (Nat × StackFrameAllocator) :=
  match a.recycled with
  | ppn :: rest => some (ppnFromUsize ek ppn, { a with recycled := rest })
  | [] =>
    if a.current < a.endp then
      some (a.current, { a with current := a.current + 1 })
    else
      none

/-- `StackFrameAllocator::dealloc`: panic (`none`) when `ppn ≥ current` or
    `ppn` is already recycled; otherwise zero the page and push the ppn. -/
def StackFrameAllocator.dealloc (a : StackFrameAllocator) (m : Mem)
    (ppn : Nat) : Option (StackFrameAllocator × Mem) :=
  if ppn ≥ a.current ∨ ppn ∈ a.recycled then
    none
  else
    some ({ a with recycled := ppn :: a.recycled }, pageZero m ppn)

/-- `StackFrameAllocator::init(l, r)`. -/
def StackFrameAllocator.init (l r : Nat) : StackFrameAllocator :=
  ⟨l, r, []⟩

/-! ## Page-table walks (os/src/mm/page_table.rs) -/

/-- The three slots visited by `find_pte`'s walk: `none` when an
    intermediate entry is invalid, otherwise the `(page, index)` slots of
    levels 0, 1 and the leaf. -/
def walk (ek : Nat) (m : Mem) (root vpn : Nat) :
    Option ((Nat × Nat) × (Nat × Nat) × (Nat × Nat)) :=
  if (PageTableEntry.mk (m root (vpnIndexes vpn).1)).isValid then
    if (PageTableEntry.mk (m
          (PageTableEntry.ppn ek ⟨m root (vpnIndexes vpn).1⟩)
          (vpnIndexes vpn).2.1)).isValid then
      some ((root, (vpnIndexes vpn).1),
        (PageTableEntry.ppn ek ⟨m root (vpnIndexes vpn).1⟩,
          (vpnIndexes vpn).2.1),
        (PageTableEntry.ppn ek ⟨m
            (PageTableEntry.ppn ek ⟨m root (vpnIndexes vpn).1⟩)
            (vpnIndexes vpn).2.1⟩,
          (vpnIndexes vpn).2.2))
    else
      none
  else
    none

/-- `PageTable::find_pte`: non-mutating walk; the slot of the leaf entry,
    `none` on any invalid intermediate.  It takes no allocator: it is a
    pure function of the memory (`&self` in the source). -/
def find_pte (ek : Nat) (m : Mem) (root vpn : Nat) : Option (Nat × Nat) :=
  (walk ek m root vpn).map (fun l => l.2.2)

/-- `PageTable::translate`: the contents of the leaf slot. -/
def translate (ek : Nat) (m : Mem) (root vpn : Nat) : Option PageTableEntry :=
  (find_pte ek m root vpn).map (fun l => ⟨m l.1 l.2⟩)

/-- `PageTable::find_pte_create`: like the walk, but an invalid intermediate
    is replaced by a freshly allocated frame mapped with flag V only.
    Returns the new memory, allocator, list of frames pushed onto
    `self.frames`, and the leaf slot; `none` = allocation failure
    (`frame_alloc().unwrap()` panics). -/
def find_pte_create (ek : Nat) (m : Mem) (a : StackFrameAllocator)
    (root vpn : Nat) :
    Option (Mem × StackFrameAllocator × List Nat × (Nat × Nat)) :=
  let is := vpnIndexes vpn
  let pte0 : PageTableEntry := ⟨m root is.1⟩
  match
    if pte0.isValid then
      some (m, a, ([] : List Nat), pte0.ppn ek)
    else
      match a.alloc ek with
      | none => none
      | some (f, a1) =>
        let npte := PageTableEntry.new f 1
        some (memWrite m root is.1 npte.bits, a1, [f], npte.ppn ek)
  with
  | none => none
  | some (m1, a1, fr1, p1) =>
    let pte1 : PageTableEntry := ⟨m1 p1 is.2.1⟩
    match
      if pte1.isValid then
        some (m1, a1, fr1, pte1.ppn ek)
      else
        match a1.alloc ek with
        | none => none
        | some (f, a2) =>
          let npte := PageTableEntry.new f 1
          some (memWrite m1 p1 is.2.1 npte.bits, a2, fr1 ++ [f], npte.ppn ek)
    with
    | none => none
    | some (m2, a2, fr2, p2) => some (m2, a2, fr2, (p2, is.2.2))

/-- `PageTable::map(vpn, ppn, flags)`: `find_pte_create`, assert the leaf is
    invalid (panic = `none`), then install `(ppn, flags | V)`. -/
def PageTable.map (ek : Nat) (m : Mem) (a : StackFrameAllocator)
    (root vpn ppn flags : Nat) :
    Option (Mem × StackFrameAllocator × List Nat) :=
  match find_pte_create ek m a root vpn with
  | none => none
  | some (m1, a1, fr, loc) =>
    if (PageTableEntry.mk (m1 loc.1 loc.2)).isValid then
      none
    else
      some (memWrite m1 loc.1 loc.2 (PageTableEntry.new ppn (flags ||| 1)).bits,
            a1, fr)

/-- `PageTable::unmap(vpn)`: `find_pte(vpn).unwrap()` (panic when no leaf is
    reachable), assert the leaf is valid (panic otherwise), then clear it. -/
def PageTable.unmap (ek : Nat) (m : Mem) (root vpn : Nat) : Option Mem :=
  match find_pte ek m root vpn with
  | none => none
  | some loc =>
    if (PageTableEntry.mk (m loc.1 loc.2)).isValid then
      some (memWrite m loc.1 loc.2 0)
    else
      none

/-- `PageTable::from_token`: root ppn from the low 44 bits of `satp`,
    through the `usize → PhysPageNum` conversion. -/
def fromToken (ek satp : Nat) : Nat :=
  ppnFromUsize ek (satp % 2 ^ PPN_WIDTH_SV39)

/-! ## Memory sets (os/src/mm/memory_set.rs) -/

/-- `MapType`. -/
inductive MapTypeM
  | identical
  | framed
deriving DecidableEq

/-- `MapArea`: vpn range `[l, r)`, map type, permission bits (R=2, W=4, X=8,
    U=16 as in the `MapPermission` bitflags), and the `data_frames` map
    (the `BTreeMap<VirtPageNum, FrameTracker>` as an association list). -/
structure MapAreaM where
  l : Nat
  r : Nat
  map_type : MapTypeM
  map_perm : Nat
  data_frames : List (Nat × Nat)
deriving DecidableEq

/-- `SimpleRange::contain`. -/
def MapAreaM.contain (area : MapAreaM) (vpn : Nat) : Bool :=
  area.l ≤ vpn && vpn < area.r

/-- `BTreeMap::remove` key lookup on the association list. -/
def dfLookup (df : List (Nat × Nat)) (vpn : Nat) : Option Nat :=
  (df.find? (fun p => p.1 == vpn)).map (fun p => p.2)

/-- Drop the (unique) entry with the given key. -/
def dfRemove (df : List (Nat × Nat)) (vpn : Nat) : List (Nat × Nat) :=
  df.eraseP (fun p => p.1 == vpn)

/-- The whole mutable state `sys_mmap`/`sys_munmap` act on: physical memory,
    the global frame allocator, the current task's page-table root and its
    `MemorySet::areas`. -/
structure TaskState where
  mem : Mem
  falloc : StackFrameAllocator
  root : Nat
  areas : List MapAreaM

/-- `MapArea::map_one`: allocate a frame (Framed) or reuse the vpn
    (Identical), record it in `data_frames`, and `PageTable::map` it with
    the area's permission bits. -/
def map_one (ek : Nat) (m : Mem) (a : StackFrameAllocator) (root : Nat)
    (ty : MapTypeM) (perm : Nat) (df : List (Nat × Nat)) (vpn : Nat) :
    Option (Mem × StackFrameAllocator × List (Nat × Nat)) :=
  match ty with
  | .identical =>
    match PageTable.map ek m a root vpn vpn perm with
    | none => none
    | some (m1, a1, _) => some (m1, a1, df)
  | .framed =>
    match a.alloc ek with
    | none => none
    | some (f, a1) =>
      match PageTable.map ek m a1 root vpn f perm with
      | none => none
      | some (m1, a2, _) => some (m1, a2, df ++ [(vpn, f)])

/-- `MapArea::map`: `map_one` for every vpn of `[l, r)` in order. -/
def mapAll (ek : Nat) (m : Mem) (a : StackFrameAllocator) (root : Nat)
    (ty : MapTypeM) (perm : Nat) (l r : Nat) :
    Option (Mem × StackFrameAllocator × List (Nat × Nat)) :=
  (List.range (r - l)).foldlM
    (fun st k => map_one ek st.1 st.2.1 root ty perm st.2.2 (l + k))
    (m, a, ([] : List (Nat × Nat)))

/-- `MapArea::unmap_one`: for a Framed area, remove the vpn's
    `FrameTracker`; dropping it runs `frame_dealloc` (zeroing the page,
    recycling the ppn, panicking on an invalid free).  Then
    `PageTable::unmap`. -/
def unmap_one (ek : Nat) (m : Mem) (a : StackFrameAllocator) (root : Nat)
    (area : MapAreaM) (vpn : Nat) :
    Option (Mem × StackFrameAllocator × MapAreaM) :=
  match
    match area.map_type with
    | .identical => some (m, a, area)
    | .framed =>
      match dfLookup area.data_frames vpn with
      | none => some (m, a, area)
      | some ppn =>
        match a.dealloc m ppn with
        | none => none
        | some (a1, m1) =>
          some (m1, a1, { area with data_frames := dfRemove area.data_frames vpn })
  with
  | none => none
  | some (m1, a1, area1) =>
    match PageTable.unmap ek m1 root vpn with
    | none => none
    | some m2 => some (m2, a1, area1)

/-! ## Syscalls (os/src/syscall/mod.rs) -/

/-- The `MapPermission` bits `U | derived-from-prot` computed by `sys_mmap`:
    prot bit 0 → R, bit 1 → W, bit 2 → X. -/
def mmapPerm (prot : Nat) : Nat :=
  ((16 ||| (if prot &&& 1 = 1 then 2 else 0)) |||
    (if prot &&& 2 = 2 then 4 else 0)) |||
    (if prot &&& 4 = 4 then 8 else 0)

/-- `sys_mmap(start, len, prot)` (syscall/mod.rs lines 116-158).
    The three `assert!`s panic (`none`) on bad arguments; the overlap check
    walks vpns `[start>>12, (start+len)>>12)` and returns `-1` on a hit;
    otherwise `insert_framed_area` builds and maps a Framed area over
    `[floor start, ceil (start+len))` (`VPNRange::new` asserts
    `start ≤ end`). -/
def sys_mmap (ek : Nat) (s : TaskState) (start len prot : Nat) :
    Option (TaskState × Int) :=
  if ¬ (0 < prot ∧ prot ≤ 7) then none
  else if ¬ vaAligned (vaFrom start) then none
  else if len = 0 then none
  else
    let sv := vpnFrom start
    let ev := vpnFrom (start + len)
    if (List.range (ev - sv)).any
        (fun k => (translate ek s.mem s.root (sv + k)).isSome) then
      some (s, -1)
    else
      let l := vaFloor (vaFrom start)
      let r := vaCeil (vaFrom (start + len))
      if l > r then none
      else
        match mapAll ek s.mem s.falloc s.root .framed (mmapPerm prot) l r with
        | none => none
        | some (m1, a1, df) =>
          some (TaskState.mk m1 a1 s.root
            (s.areas ++ [⟨l, r, .framed, mmapPerm prot, df⟩]), 0)

/-- The per-area body of `sys_munmap`'s unmap loop: areas are visited in
    order; an area containing the running cursor has `unmap_one` applied at
    the cursor and the cursor advances by one. -/
def munmapStep (ek : Nat) (root : Nat)
    (st : Mem × StackFrameAllocator × Nat × List MapAreaM) (area : MapAreaM) :
    Option (Mem × StackFrameAllocator × Nat × List MapAreaM) :=
  if area.contain st.2.2.1 then
    match unmap_one ek st.1 st.2.1 root area st.2.2.1 with
    | none => none
    | some (m1, a1, area1) =>
      some (m1, a1, st.2.2.1 + 1, st.2.2.2 ++ [area1])
  else
    some (st.1, st.2.1, st.2.2.1, st.2.2.2 ++ [area])

/-- `sys_munmap(start, len)` (syscall/mod.rs lines 160-184): the check loop
    iterates `vpn` over `[start>>12, (start+len)>>12)` but calls
    `pgtbl.translate(vpn.into())`, and `From<usize> for VirtPageNum`
    (address.rs lines 114-123) treats its input as an address — mask to 39
    bits, shift by 12 — so the vpn actually translated is
    `vpnFrom (sv + k)`, not `sv + k`; `-1` when one of those re-shifted
    vpns does not translate, otherwise the per-area loop runs with cursor
    `start>>12`. -/
def sys_munmap (ek : Nat) (s : TaskState) (start len : Nat) :
    Option (TaskState × Int) :=
  let sv := vpnFrom start
  let ev := vpnFrom (start + len)
  if (List.range (ev - sv)).any
      (fun k => (translate ek s.mem s.root (vpnFrom (sv + k))).isNone) then
    some (s, -1)
  else
    match s.areas.foldlM (munmapStep ek s.root) (s.mem, s.falloc, sv, []) with
    | none => none
    | some (m1, a1, _, areas1) =>
      some (TaskState.mk m1 a1 s.root areas1, 0)

/-! ## The taskinfo syscall (id 410) -/

/-- The fields of `TaskControlBlockInner` that `sys_taskinfo` reads
    (os/src/task/task.rs). -/
structure TaskInnerM where
  trap_cx_ppn : Nat
  base_size : Nat
  runtime_in_user : Nat
  runtime_in_kernel : Nat
deriving DecidableEq

/-- `TaskInfo` (os/src/task/task.rs lines 258-270). -/
structure TaskInfoM where
  root_pagetable : Nat
  trap_cx_ppn : Nat
  base_size : Nat
  runtime_in_user : Nat
  runtime_in_kernel : Nat
deriving DecidableEq

/-- `sys_taskinfo(info)` (syscall/mod.rs lines 103-114): fill the caller's
    `TaskInfo` from the current task and return 0.  There is no id
    argument and no bound check. -/
def sys_taskinfo (current : TaskInnerM) (token : Nat) : TaskInfoM × Int :=
  (⟨token, current.trap_cx_ppn, current.base_size,
    current.runtime_in_user, current.runtime_in_kernel⟩, 0)

/-- Dispatch of syscall id 410 (syscall/mod.rs line 56):
    `sys_taskinfo(args[0] as *mut TaskInfo)` — `args[0]` is only the
    destination pointer; the return value ignores it. -/
def syscall_taskinfo (current : TaskInnerM) (token arg0 : Nat) :
    TaskInfoM × Int :=
  let _ := arg0
  sys_taskinfo current token

/-- The task/mod.rs `TaskInfo` filled by the unreferenced
    `syscall/util.rs` variant. -/
structure TaskInfoU where
  id : Nat
  status : Nat
  times : Nat × Nat
deriving DecidableEq

/-- `sys_taskinfo(id, info)` (syscall/util.rs lines 33-46, a module not
    declared in syscall/mod.rs, hence never dispatched): bound-check the id
    against `MAX_APP_NUM`, fill via `get_taskinfo` (task/mod.rs, which
    indexes `tasks[id]`, panicking past the vector's length), return 0,
    else `-1`. -/
def sys_taskinfo_util (id : Nat) (statuses : List Nat)
    (ucnt kcnt : Nat → Nat) : Option (Option TaskInfoU × Int) :=
  if id < MAX_APP_NUM then
    match statuses.get? id with
    | none => none
    | some st => some (some ⟨id, st, (ucnt id, kcnt id)⟩, 0)
  else
    some (none, -1)

/-! ## translated_byte_buffer (os/src/mm/page_table.rs lines 156-177)

A returned `&mut [u8]` slice is the byte range `[lo, hi)` of physical page
`ppn`.  The `while start < end` loop has no structural termination measure
(for some inputs the source loops forever), so the embedding takes a fuel
bound on the number of iterations and answers `none` when it runs out. -/

/-- One slice of the returned buffer. -/
structure BufSlice where
  ppn : Nat
  lo : Nat
  hi : Nat
deriving DecidableEq

/-- The loop of `translated_byte_buffer`. -/
def tbbGo (ek : Nat) (m : Mem) (root : Nat) (endv : Nat) :
    Nat → Nat → Option (List BufSlice)
  | 0, start => if start < endv then none else some []
  | fuel + 1, start =>
    if start < endv then
      let start_va := vaFrom start
      let vpn := vaFloor start_va
      match translate ek m root vpn with
      | none => none
      | some pte =>
        let ppn := pte.ppn ek
        let end_va := min ((vpn + 1) * PAGE_SIZE) (vaFrom endv)
        let slice : BufSlice :=
          if pageOffset end_va = 0 then
            ⟨ppn, pageOffset start_va, PAGE_SIZE⟩
          else
            ⟨ppn, pageOffset start_va, pageOffset end_va⟩
        match tbbGo ek m root endv fuel (vaToUsize end_va) with
        | none => none
        | some rest => some (slice :: rest)
    else
      some []

/-- `translated_byte_buffer(token, ptr, len)`: build the page table from the
    token and chop `[ptr, ptr+len)` into per-page slices. -/
def translated_byte_buffer (ek : Nat) (m : Mem) (token ptr len fuel : Nat) :
    Option (List BufSlice) :=
  tbbGo ek m (fromToken ek token) (ptr + len) fuel ptr

/-! ## easy-fs bitmap (easy-fs/src/bitmap.rs)

`BLOCK_SZ = 512` is in the missing easy-fs `lib.rs`; the spec fixes block
size 512, hence `BLOCK_BITS = 4096`.  A bitmap block is 64 lanes of `u64`;
the disk (as seen through the block cache) maps an absolute block id and a
lane index to the lane's value. -/

def BLOCK_SZ : Nat := 512

def BLOCK_BITS : Nat := BLOCK_SZ * 8

def u64MAX : Nat := 2 ^ 64 - 1

/-- The bitmap area of the disk: absolute block id → lane index → u64. -/
def DiskBM : Type := Nat → Nat → Nat

/-- Update one lane of one block. -/
def diskWrite (d : DiskBM) (b j v : Nat) : DiskBM :=
  fun b1 j1 => if b1 = b ∧ j1 = j then v else d b1 j1

/-- `Bitmap { start_block_id, blocks }` (the block count field). -/
structure BitmapSt where
  start_block_id : Nat
  n_blocks : Nat
deriving DecidableEq

/-- `u64::trailing_ones`, bit by bit; the fuel is the 64-bit width of the
    lane (structural recursion so the definition evaluates). -/
def trailingOnesAux : Nat → Nat → Nat
  | 0, _ => 0
  | fuel + 1, x => if x % 2 = 1 then trailingOnesAux fuel (x / 2) + 1 else 0

/-- `u64::trailing_ones`. -/
def trailingOnes (x : Nat) : Nat := trailingOnesAux 64 x

/-- `iter().enumerate().find(|(_, bits64)| **bits64 != u64::MAX)`: the first
    of the 64 lanes that is not all ones. -/
def findLane (blk : Nat → Nat) : Option Nat :=
  (List.range 64).find? (fun j => blk j != u64MAX)

/-- The body of `Bitmap::alloc` for one block: set the lowest zero bit of
    the first non-full lane, if any. -/
def allocInBlock (d : DiskBM) (babs bid : Nat) : DiskBM × Option Nat :=
  let blk := d babs
  match findLane blk with
  | none => (d, none)
  | some j =>
    let inner := trailingOnes (blk j)
    (diskWrite d babs j (blk j ||| (1 <<< inner)),
     some (bid * BLOCK_BITS + j * 64 + inner))

/-- `Bitmap::alloc`: scan the blocks in order, returning at the first block
    with a free bit. -/
def bitmapAllocGo (start : Nat) (d : DiskBM) : List Nat → DiskBM × Option Nat
  | [] => (d, none)
  | bid :: rest =>
    match allocInBlock d (bid + start) bid with
    | (d1, some pos) => (d1, some pos)
    | (_, none) => bitmapAllocGo start d rest

/-- `Bitmap::alloc(block_device)`. -/
def Bitmap.alloc (bm : BitmapSt) (d : DiskBM) : DiskBM × Option Nat :=
  bitmapAllocGo bm.start_block_id d (List.range bm.n_blocks)

/-- `decomposition(bit)`. -/
def decomposition (bit : Nat) : Nat × Nat × Nat :=
  (bit / BLOCK_BITS, bit % BLOCK_BITS / 64, bit % BLOCK_BITS % 64)

/-- `Bitmap::dealloc(block_device, bit)`: assert the bit is set (panic =
    `none`), then subtract it. -/
def Bitmap.dealloc (bm : BitmapSt) (d : DiskBM) (bit : Nat) : Option DiskBM :=
  let c := decomposition bit
  let blk := d (c.1 + bm.start_block_id)
  if blk c.2.1 &&& (1 <<< c.2.2) > 0 then
    some (diskWrite d (c.1 + bm.start_block_id) c.2.1
      (blk c.2.1 - (1 <<< c.2.2)))
  else
    none

/-! ## Block cache manager (easy-fs/src/block_cache.rs)

The manager's queue holds `(block_id, strong_count)` pairs, the strong count
standing for `Arc::strong_count` of the stored handle (2 right after
insertion: the queue's copy plus the caller's).  Handles dropped by callers
are an external event that decrements a count. -/

def BLOCK_CACHE_SIZE : Nat := 16

/-- `BlockCacheManager` (new() starts with an empty queue). -/
structure BCM where
  queue : List (Nat × Nat)
deriving DecidableEq

/-- Increment the strong count of the first entry with the given id
    (a cache hit hands out one more clone). -/
def bumpFirst : List (Nat × Nat) → Nat → List (Nat × Nat)
  | [], _ => []
  | p :: rest, id =>
    if p.1 = id then (p.1, p.2 + 1) :: rest else p :: bumpFirst rest id

/-- `BlockCacheManager::get_block_cache`: on a hit, return a clone of the
    stored handle; on a miss at capacity, drain the first entry with strong
    count 1 (panic = `none` if there is none), then read the block and
    push the new entry at the back. -/
def BCM.get_block_cache (mgr : BCM) (id : Nat) : Option BCM :=
  if (mgr.queue.find? (fun p => p.1 == id)).isSome then
    some ⟨bumpFirst mgr.queue id⟩
  else
    match
      if mgr.queue.length = BLOCK_CACHE_SIZE then
        match mgr.queue.findIdx? (fun p => p.2 == 1) with
        | some idx => some (mgr.queue.eraseIdx idx)
        | none => none
      else
        some mgr.queue
    with
    | none => none
    | some q => some ⟨q ++ [(id, 2)]⟩

/-- Decrement the strong count of the entry at a position (never below the
    queue's own reference). -/
def decAt : List (Nat × Nat) → Nat → List (Nat × Nat)
  | [], _ => []
  | p :: rest, 0 => (if p.2 > 1 then (p.1, p.2 - 1) else p) :: rest
  | p :: rest, i + 1 => p :: decAt rest i

/-- An external event: a caller drops a handle to the entry at position
    `i`, decrementing its strong count. -/
def BCM.dropHandle (mgr : BCM) (i : Nat) : BCM :=
  ⟨decAt mgr.queue i⟩

/-- A history of cache operations. -/
inductive CacheOp
  | get (id : Nat)
  | drop (i : Nat)

/-- Run one operation. -/
def BCM.step (mgr : BCM) : CacheOp → Option BCM
  | .get id => mgr.get_block_cache id
  | .drop i => some (mgr.dropHandle i)

/-- Run a history from `BlockCacheManager::new()`. -/
def BCM.run (ops : List CacheOp) : Option BCM :=
  ops.foldlM BCM.step ⟨[]⟩

/-! ## VFS unlink (easy-fs/src/vfs.rs)

`DiskInode`, `DirEntry` and `EasyFileSystem` live in easy-fs files that are
not in the tree (`layout.rs`, `efs.rs`); they are modelled from the spec:
a disk inode carries a size, a type, the data+meta blocks it owns
(returned wholesale by `clear_size`), and its logical byte content;
`read_at`/`write_at` copy bytes below `size` and never extend it; a dirent
is 32 bytes, a null-terminated name in the first 28 and a little-endian
u32 inode number in the last 4; `EasyFileSystem::dealloc_data` clears the
block's data-bitmap bit. -/

def DIRENT_SZ : Nat := 32

/-- Modelled from the spec: `DiskInode` with its content abstracted to a
    byte function (`bytes j` = byte `j` of the file). -/
structure DiskInodeM where
  size : Nat
  isDir : Bool
  blocks : List Nat
  bytes : Nat → Nat

/-- The filesystem state `Inode::unlink` acts on: the root directory inode,
    the inode area (by inode number) and the data bitmap. -/
structure FsState where
  root : DiskInodeM
  inodes : Nat → DiskInodeM
  dataAlloc : Nat → Bool

/-- Modelled from the spec: `DirEntry::name()` — the name bytes of the
    dirent at `off`, up to the null terminator (at most 27 characters, the
    28th byte is the forced terminator). -/
def nameAt (b : Nat → Nat) (off : Nat) : List Nat :=
  (List.range (((List.range 28).find? (fun j => b (off + j) == 0)).getD 28)).map
    (fun j => b (off + j))

/-- Modelled from the spec: `DirEntry::inode_number()` — little-endian u32
    at `off + 28`. -/
def inodeNumAt (b : Nat → Nat) (off : Nat) : Nat :=
  b (off + 28) + 256 * b (off + 29) + 65536 * b (off + 30) +
    16777216 * b (off + 31)

/-- The scan shared by `find_inode_id` and `unlink`'s dirent loop: the
    first dirent slot (of `size / DIRENT_SZ` many) whose name matches. -/
def findDirentIdx (root : DiskInodeM) (name : List Nat) : Option Nat :=
  (List.range (root.size / DIRENT_SZ)).find?
    (fun i => nameAt root.bytes (DIRENT_SZ * i) == name)

/-- `Inode::unlink(name)` (vfs.rs lines 236-256): `find(name).unwrap()`
    (panic when absent, assert the root is a directory), `clear()` the
    target (size to 0, every block back to the data bitmap), then zero the
    matching dirent slot with `write_at(offset, [0; DIRENT_SZ])`; the
    commented-out `root.size -= 32` is not executed. -/
def Inode.unlink (fs : FsState) (name : List Nat) : Option FsState :=
  if ¬ fs.root.isDir then none
  else
    match findDirentIdx fs.root name with
    | none => none
    | some k =>
      let id := inodeNumAt fs.root.bytes (DIRENT_SZ * k)
      let tgt := fs.inodes id
      let inodes1 := fun i =>
        if i = id then DiskInodeM.mk 0 tgt.isDir [] tgt.bytes else fs.inodes i
      let dataAlloc1 := fun bl =>
        if bl ∈ tgt.blocks then false else fs.dataAlloc bl
      let cnt := min DIRENT_SZ (fs.root.size - DIRENT_SZ * k)
      let rootBytes1 := fun j =>
        if DIRENT_SZ * k ≤ j ∧ j < DIRENT_SZ * k + cnt then 0
        else fs.root.bytes j
      some (FsState.mk
        (DiskInodeM.mk fs.root.size fs.root.isDir fs.root.blocks rootBytes1)
        inodes1 dataAlloc1)

/-! # Theorems -/

/-! ## Shared bit-arithmetic helpers -/

/-- Setting a clear bit with `|=` is addition of the power of two. -/
theorem lor_two_pow_of_testBit :
    ∀ (i x : Nat), Nat.testBit x i = false → x ||| 2 ^ i = x + 2 ^ i := by
  intro i
  induction i with
  | zero =>
    intro x h
    simp only [Nat.testBit_zero, decide_eq_false_iff_not] at h
    have h0 : x % 2 = 0 := by omega
    have hd : (x ||| 2 ^ 0) / 2 = x / 2 := by
      rw [Nat.or_div_two]
      norm_num
    have hm : (x ||| 2 ^ 0) % 2 = 1 := by
      have := Nat.or_mod_two_eq_one (a := x) (b := 2 ^ 0)
      have h2 : (2 : Nat) ^ 0 % 2 = 1 := by norm_num
      omega
    have := Nat.div_add_mod (x ||| 2 ^ 0) 2
    have := Nat.div_add_mod x 2
    omega
  | succ i ih =>
    intro x h
    rw [Nat.testBit_add_one] at h
    have ihx := ih (x / 2) h
    have hd : (x ||| 2 ^ (i + 1)) / 2 = x / 2 ||| 2 ^ i := by
      rw [Nat.or_div_two, Nat.pow_succ, Nat.mul_div_cancel]
      omega
    have hm : (x ||| 2 ^ (i + 1)) % 2 = x % 2 := by
      have hiff := Nat.or_mod_two_eq_one (a := x) (b := 2 ^ (i + 1))
      have h2 : (2 : Nat) ^ (i + 1) % 2 = 0 := by
        rw [Nat.pow_succ, Nat.mul_mod_left]
      have hx2 := Nat.mod_two_eq_zero_or_one x
      have ho2 := Nat.mod_two_eq_zero_or_one (x ||| 2 ^ (i + 1))
      omega
    have he := Nat.div_add_mod (x ||| 2 ^ (i + 1)) 2
    have he2 := Nat.div_add_mod x 2
    have : (2 : Nat) ^ (i + 1) = 2 ^ i * 2 := by rw [Nat.pow_succ]
    omega

/-- The subtraction inverse: clearing a bit just set restores the lane. -/
theorem lor_two_pow_sub (x i : Nat) (h : Nat.testBit x i = false) :
    (x ||| 2 ^ i) - 2 ^ i = x := by
  rw [lor_two_pow_of_testBit i x h]
  omega

/-- A bit just set tests set. -/
theorem testBit_lor_two_pow_self (x i : Nat) :
    Nat.testBit (x ||| 2 ^ i) i = true := by
  simp [Nat.testBit_or, Nat.testBit_two_pow_self]

/-- `x &&& 2^i > 0` is exactly `testBit x i`. -/
theorem and_two_pow_pos_iff (x i : Nat) :
    0 < x &&& 2 ^ i ↔ Nat.testBit x i = true := by
  rw [Nat.and_two_pow]
  cases h : Nat.testBit x i <;> simp [Nat.pos_pow_of_pos]

/-! ## C5: frame-allocator dealloc (corrected) -/

/-- All-zero physical memory. -/
def memZero : Mem := fun _ _ => 0

/-- C5 counterexample: the claim says `dealloc(ppn)` panics on a PPN that
    was never allocated, including ppns below the allocator's initial lower
    bound.  After `init(5, 10)` nothing has been allocated, ppn 3 is below
    the lower bound 5, yet `dealloc 3` does not panic: the check
    `ppn.0 >= self.current` does not catch ppns below `current`. -/
theorem frame_dealloc_below_bound_not_caught :
    (StackFrameAllocator.dealloc (StackFrameAllocator.init 5 10) memZero
      3).isSome = true := by
  decide

/-- C5 amended: `dealloc(ppn)` panics exactly when `ppn ≥ current` or `ppn`
    is already in the recycled list — this catches double frees and
    never-allocated ppns at or above `current`, but not never-allocated
    ppns below `current` (such as ppns below the initial lower bound).
    Otherwise it zeroes the whole page (512 words = 4096 bytes) and pushes
    the ppn onto the recycled list. -/
theorem frame_dealloc_spec (a : StackFrameAllocator) (m : Mem) (ppn : Nat) :
    (ppn ≥ a.current ∨ ppn ∈ a.recycled →
      a.dealloc m ppn = none) ∧
    (ppn < a.current → ppn ∉ a.recycled →
      a.dealloc m ppn =
        some ({ a with recycled := ppn :: a.recycled }, pageZero m ppn) ∧
      (∀ i, pageZero m ppn ppn i = 0) ∧
      (∀ q i, q ≠ ppn → pageZero m ppn q i = m q i)) := by
  constructor
  · intro h
    simp only [StackFrameAllocator.dealloc, if_pos h]
  · intro h1 h2
    refine ⟨?_, ?_, ?_⟩
    · simp only [StackFrameAllocator.dealloc]
      rw [if_neg]
      exact fun hc => hc.elim (fun hge => by omega) h2
    · intro i
      simp [pageZero]
    · intro q i hq
      simp [pageZero, hq]

/-- C5 witness: a concrete successful dealloc of a recyclable ppn. -/
theorem frame_dealloc_spec_witness :
    StackFrameAllocator.dealloc ⟨5, 10, [7]⟩ memZero 4 =
      some (⟨5, 10, [4, 7]⟩, pageZero memZero 4) ∧
    pageZero memZero 4 4 0 = 0 := by
  have h := (frame_dealloc_spec ⟨5, 10, [7]⟩ memZero 4).2
    (by decide) (by decide)
  exact ⟨h.1, h.2.1 0⟩

/-! ## C3: the taskinfo syscall (corrected) -/

/-- A sample current-task state. -/
def c3Inner : TaskInnerM := ⟨0x80ab3, 0x11000, 3, 4⟩

/-- C3 counterexample: the claim says an out-of-range task id returns `-1`.
    Task id 20 is out of range (`MAX_APP_NUM = 16`), yet the dispatched
    handler (syscall/mod.rs line 56, which reinterprets `args[0]` as the
    output pointer) returns 0 for it, not `-1`. -/
theorem taskinfo_out_of_range_returns_zero :
    ¬ 20 < MAX_APP_NUM ∧
    (syscall_taskinfo c3Inner 0x8000000000080ab3 20).2 = 0 ∧
    (syscall_taskinfo c3Inner 0x8000000000080ab3 20).2 ≠ -1 := by
  refine ⟨by decide, by decide, by decide⟩

/-- C3 amended: syscall 410 dispatches to the id-less
    `sys_taskinfo(info: *mut TaskInfo)` of syscall/mod.rs, which fills the
    caller's TaskInfo from the current task and returns 0 for every
    argument value — there is no bound check and `-1` is never returned.
    The bound-checked variant (syscall/util.rs, `id < MAX_APP_NUM` → fill
    and 0, else `-1`) exists but its module is not declared, so it is never
    dispatched. -/
theorem taskinfo_dispatch_spec :
    (∀ (current : TaskInnerM) (tok arg0 : Nat),
      (syscall_taskinfo current tok arg0).2 = 0 ∧
      (syscall_taskinfo current tok arg0).1 =
        ⟨tok, current.trap_cx_ppn, current.base_size,
          current.runtime_in_user, current.runtime_in_kernel⟩) ∧
    (∀ (id : Nat) (statuses : List Nat) (u k : Nat → Nat),
      MAX_APP_NUM ≤ id →
      sys_taskinfo_util id statuses u k = some (none, -1)) ∧
    (∀ (id : Nat) (statuses : List Nat) (u k : Nat → Nat) (st : Nat),
      id < MAX_APP_NUM → statuses.get? id = some st →
      sys_taskinfo_util id statuses u k =
        some (some ⟨id, st, (u id, k id)⟩, 0)) := by
  refine ⟨fun current tok arg0 => ⟨rfl, rfl⟩, ?_, ?_⟩
  · intro id statuses u k h
    simp only [sys_taskinfo_util]
    rw [if_neg]
    omega
  · intro id statuses u k st h hst
    simp only [sys_taskinfo_util, if_pos h, hst]

/-- A concrete per-app u/k time counter (identically zero). -/
def zeroFn : Nat → Nat := fun _ => 0

/-- C3 witness: instantiating all three parts at concrete inputs. -/
theorem taskinfo_dispatch_spec_witness :
    (syscall_taskinfo c3Inner 0x11 9).2 = 0 ∧
    sys_taskinfo_util 20 [0, 1, 2] zeroFn zeroFn = some (none, -1) ∧
    sys_taskinfo_util 1 [0, 1, 2] zeroFn zeroFn =
      some (some ⟨1, 1, (zeroFn 1, zeroFn 1)⟩, 0) := by
  refine ⟨(taskinfo_dispatch_spec.1 c3Inner 0x11 9).1, ?_, ?_⟩
  · exact taskinfo_dispatch_spec.2.1 20 [0, 1, 2] zeroFn zeroFn (by decide)
  · exact taskinfo_dispatch_spec.2.2 1 [0, 1, 2] zeroFn zeroFn 1 (by decide)
      (by decide)

/-! ## C4: page-table map / unmap / translate (confirmed) -/

/-- Reading the written slot. -/
theorem memWrite_self (m : Mem) (p i v : Nat) : memWrite m p i v p i = v := by
  simp [memWrite]

/-- Reading any other slot. -/
theorem memWrite_other (m : Mem) (p i v q j : Nat)
    (h : ¬ (q = p ∧ j = i)) : memWrite m p i v q j = m q j := by
  simp only [memWrite]
  rw [if_neg h]

/-- A low-bits or after a shift is addition. -/
theorem shiftLeft_lor_small :
    ∀ (k a f : Nat), f < 2 ^ k → a <<< k ||| f = a * 2 ^ k + f := by
  intro k
  induction k with
  | zero =>
    intro a f hf
    have hf0 : f = 0 := by omega
    subst hf0
    simp [Nat.shiftLeft_zero]
  | succ k ih =>
    intro a f hf
    have hsh : a <<< (k + 1) = 2 * (a <<< k) := by
      rw [Nat.shiftLeft_eq, Nat.shiftLeft_eq, Nat.pow_succ]
      ring
    have hd : (a <<< (k + 1) ||| f) / 2 = a <<< k ||| f / 2 := by
      rw [Nat.or_div_two, hsh, Nat.mul_div_cancel_left _ (by omega : 0 < 2)]
    have hp : (2 : Nat) ^ (k + 1) = 2 ^ k * 2 := by rw [Nat.pow_succ]
    have hdi : a <<< k ||| f / 2 = a * 2 ^ k + f / 2 :=
      ih a (f / 2) (by omega)
    have hm : (a <<< (k + 1) ||| f) % 2 = f % 2 := by
      have hiff := Nat.or_mod_two_eq_one (a := a <<< (k + 1)) (b := f)
      have hz : a <<< (k + 1) % 2 = 0 := by
        rw [hsh]
        omega
      have hx2 := Nat.mod_two_eq_zero_or_one f
      have ho2 := Nat.mod_two_eq_zero_or_one (a <<< (k + 1) ||| f)
      omega
    calc a <<< (k + 1) ||| f
        = 2 * ((a <<< (k + 1) ||| f) / 2) + (a <<< (k + 1) ||| f) % 2 :=
          (Nat.div_add_mod _ 2).symm
      _ = 2 * (a * 2 ^ k + f / 2) + f % 2 := by rw [hd, hdi, hm]
      _ = a * 2 ^ (k + 1) + (2 * (f / 2) + f % 2) := by rw [hp]; ring
      _ = a * 2 ^ (k + 1) + f := by rw [Nat.div_add_mod]

/-- `PageTableEntry::new(ppn, flags).ppn()` recovers `ppn` for in-range
    inputs (the `usize → PhysPageNum` conversion is the identity below
    `ekernel`'s address). -/
theorem pte_new_ppn (ek ppn flags : Nat) (h44 : ppn < 2 ^ PPN_WIDTH_SV39)
    (hek : ppn < vaFrom ek) (hfl : flags < 1024) :
    PageTableEntry.ppn ek (PageTableEntry.new ppn flags) = ppn := by
  unfold PageTableEntry.ppn PageTableEntry.new ppnFromUsize
  simp only
  rw [shiftLeft_lor_small 10 ppn flags hfl]
  have hsr : (ppn * 2 ^ 10 + flags) >>> 10 = ppn := by
    rw [Nat.shiftRight_eq_div_pow, Nat.mul_comm, Nat.mul_add_div (by norm_num)]
    have : flags / 2 ^ 10 = 0 := Nat.div_eq_of_lt hfl
    omega
  rw [hsr, Nat.mod_eq_of_lt h44, if_neg]
  omega

/-- `PageTableEntry::new(ppn, flags).flags()` recovers `flags` below 256. -/
theorem pte_new_flags (ppn flags : Nat) (hfl : flags < 256) :
    PageTableEntry.flags (PageTableEntry.new ppn flags) = flags := by
  unfold PageTableEntry.flags PageTableEntry.new
  simp only
  rw [shiftLeft_lor_small 10 ppn flags (by omega)]
  have h4 : ppn * 2 ^ 10 = ppn * 4 * 256 := by ring
  rw [h4, Nat.add_comm, Nat.add_mul_mod_self_right, Nat.mod_eq_of_lt hfl]

/-- An entry built with `flags | V` is valid. -/
theorem pte_new_or_one_valid (ppn flags : Nat) (hfl : flags < 256) :
    PageTableEntry.isValid (PageTableEntry.new ppn (flags ||| 1)) = true := by
  unfold PageTableEntry.isValid
  rw [pte_new_flags ppn (flags ||| 1)
    (Nat.or_lt_two_pow (n := 8) hfl (by norm_num))]
  have h1 : (flags ||| 1) % 2 = 1 := by
    have hiff := Nat.or_mod_two_eq_one (a := flags) (b := 1)
    omega
  simp only [Nat.and_one_is_mod, h1]
  decide

/-- The zero entry is invalid. -/
theorem pte_zero_invalid : PageTableEntry.isValid ⟨0⟩ = false := by
  decide

/-- Writing into the leaf slot does not disturb the walk when the leaf slot
    differs from the two intermediate slots. -/
theorem walk_memWrite_stable (ek : Nat) (m : Mem) (root vpn : Nat)
    (l0 l1 l2 : Nat × Nat) (v : Nat)
    (hw : walk ek m root vpn = some (l0, l1, l2))
    (h0 : l2 ≠ l0) (h1 : l2 ≠ l1) :
    walk ek (memWrite m l2.1 l2.2 v) root vpn = some (l0, l1, l2) := by
  unfold walk at hw ⊢
  by_cases hv0 : PageTableEntry.isValid ⟨m root (vpnIndexes vpn).1⟩
  · rw [if_pos hv0] at hw
    by_cases hv1 : PageTableEntry.isValid
        ⟨m (PageTableEntry.ppn ek ⟨m root (vpnIndexes vpn).1⟩)
          (vpnIndexes vpn).2.1⟩
    · rw [if_pos hv1] at hw
      simp only [Option.some.injEq, Prod.mk.injEq] at hw
      obtain ⟨he0, he1, he2⟩ := hw
      have hne0 : ¬ (root = l2.1 ∧ (vpnIndexes vpn).1 = l2.2) := by
        rintro ⟨ha, hb⟩
        exact h0 (by rw [← he0]; exact Prod.ext ha.symm hb.symm)
      have hr0 : memWrite m l2.1 l2.2 v root (vpnIndexes vpn).1 =
          m root (vpnIndexes vpn).1 := memWrite_other _ _ _ _ _ _ hne0
      rw [hr0, if_pos hv0]
      have hne1 : ¬ (PageTableEntry.ppn ek ⟨m root (vpnIndexes vpn).1⟩ = l2.1 ∧
          (vpnIndexes vpn).2.1 = l2.2) := by
        rintro ⟨ha, hb⟩
        exact h1 (by rw [← he1]; exact Prod.ext ha.symm hb.symm)
      have hr1 : memWrite m l2.1 l2.2 v
          (PageTableEntry.ppn ek ⟨m root (vpnIndexes vpn).1⟩)
          (vpnIndexes vpn).2.1 =
          m (PageTableEntry.ppn ek ⟨m root (vpnIndexes vpn).1⟩)
            (vpnIndexes vpn).2.1 := memWrite_other _ _ _ _ _ _ hne1
      rw [hr1, if_pos hv1, he0, he1, he2]
    · rw [if_neg hv1] at hw
      exact absurd hw (by simp)
  · rw [if_neg hv0] at hw
    exact absurd hw (by simp)

/-- C4: the page-table operations.
    (a) `map` panics when `find_pte_create` reaches an already-valid leaf;
    (b) otherwise it installs `(ppn, flags|V)` and a subsequent `translate`
    returns that entry, whose `ppn()` is `ppn` and whose flags are
    `flags|V` (side conditions: the created path re-walks to the same leaf
    slot, the leaf slot differs from the two intermediate slots, and
    `ppn`/`flags` fit their machine fields with `ppn` below the
    page-number/address threshold);
    (c) `unmap` panics when `find_pte` reaches no leaf;
    (d) `unmap` panics when the leaf found is invalid;
    (e) otherwise `unmap` clears the leaf, after which `translate` returns
    the empty (invalid) entry;
    (f) `find_pte` — a pure function of the memory, performing no
    allocation — and hence `translate` return `none` whenever either
    intermediate entry on the walk is invalid. -/
theorem page_table_ops_spec :
    (∀ (ek : Nat) (m : Mem) (a : StackFrameAllocator)
      (root vpn ppn flags : Nat) (m1 : Mem) (a1 : StackFrameAllocator)
      (fr : List Nat) (loc : Nat × Nat),
      find_pte_create ek m a root vpn = some (m1, a1, fr, loc) →
      PageTableEntry.isValid ⟨m1 loc.1 loc.2⟩ = true →
      PageTable.map ek m a root vpn ppn flags = none) ∧
    (∀ (ek : Nat) (m : Mem) (a : StackFrameAllocator)
      (root vpn ppn flags : Nat) (m1 : Mem) (a1 : StackFrameAllocator)
      (fr : List Nat) (l0 l1 l2 : Nat × Nat),
      find_pte_create ek m a root vpn = some (m1, a1, fr, l2) →
      PageTableEntry.isValid ⟨m1 l2.1 l2.2⟩ = false →
      walk ek m1 root vpn = some (l0, l1, l2) →
      l2 ≠ l0 → l2 ≠ l1 →
      ppn < 2 ^ PPN_WIDTH_SV39 → ppn < vaFrom ek → flags < 256 →
      PageTable.map ek m a root vpn ppn flags =
        some (memWrite m1 l2.1 l2.2
          (PageTableEntry.new ppn (flags ||| 1)).bits, a1, fr) ∧
      translate ek (memWrite m1 l2.1 l2.2
          (PageTableEntry.new ppn (flags ||| 1)).bits) root vpn =
        some (PageTableEntry.new ppn (flags ||| 1)) ∧
      PageTableEntry.ppn ek (PageTableEntry.new ppn (flags ||| 1)) = ppn ∧
      PageTableEntry.flags (PageTableEntry.new ppn (flags ||| 1)) =
        flags ||| 1 ∧
      PageTableEntry.isValid (PageTableEntry.new ppn (flags ||| 1)) = true) ∧
    (∀ (ek : Nat) (m : Mem) (root vpn : Nat),
      find_pte ek m root vpn = none →
      PageTable.unmap ek m root vpn = none) ∧
    (∀ (ek : Nat) (m : Mem) (root vpn : Nat) (loc : Nat × Nat),
      find_pte ek m root vpn = some loc →
      PageTableEntry.isValid ⟨m loc.1 loc.2⟩ = false →
      PageTable.unmap ek m root vpn = none) ∧
    (∀ (ek : Nat) (m : Mem) (root vpn : Nat) (l0 l1 l2 : Nat × Nat),
      walk ek m root vpn = some (l0, l1, l2) →
      PageTableEntry.isValid ⟨m l2.1 l2.2⟩ = true →
      l2 ≠ l0 → l2 ≠ l1 →
      PageTable.unmap ek m root vpn = some (memWrite m l2.1 l2.2 0) ∧
      translate ek (memWrite m l2.1 l2.2 0) root vpn =
        some PageTableEntry.empty ∧
      PageTableEntry.isValid PageTableEntry.empty = false) ∧
    (∀ (ek : Nat) (m : Mem) (root vpn : Nat),
      (PageTableEntry.isValid ⟨m root (vpnIndexes vpn).1⟩ = false →
        find_pte ek m root vpn = none ∧ translate ek m root vpn = none) ∧
      (PageTableEntry.isValid ⟨m root (vpnIndexes vpn).1⟩ = true →
        PageTableEntry.isValid
          ⟨m (PageTableEntry.ppn ek ⟨m root (vpnIndexes vpn).1⟩)
            (vpnIndexes vpn).2.1⟩ = false →
        find_pte ek m root vpn = none ∧ translate ek m root vpn = none)) := by
  refine ⟨?_, ?_, ?_, ?_, ?_, ?_⟩
  · intro ek m a root vpn ppn flags m1 a1 fr loc hc hv
    unfold PageTable.map
    rw [hc]
    simp [hv]
  · intro ek m a root vpn ppn flags m1 a1 fr l0 l1 l2 hc hv hw h0 h1 h44 hek hfl
    have hmap : PageTable.map ek m a root vpn ppn flags =
        some (memWrite m1 l2.1 l2.2
          (PageTableEntry.new ppn (flags ||| 1)).bits, a1, fr) := by
      unfold PageTable.map
      rw [hc]
      simp [hv]
    have hwalk := walk_memWrite_stable ek m1 root vpn l0 l1 l2
      (PageTableEntry.new ppn (flags ||| 1)).bits hw h0 h1
    have htr : translate ek (memWrite m1 l2.1 l2.2
        (PageTableEntry.new ppn (flags ||| 1)).bits) root vpn =
        some (PageTableEntry.new ppn (flags ||| 1)) := by
      unfold translate find_pte
      rw [hwalk]
      simp only [Option.map_some']
      rw [memWrite_self]
    exact ⟨hmap, htr, pte_new_ppn ek ppn (flags ||| 1) h44 hek
        (Nat.or_lt_two_pow (n := 10) (by omega) (by norm_num)),
      pte_new_flags ppn (flags ||| 1)
        (Nat.or_lt_two_pow (n := 8) hfl (by norm_num)),
      pte_new_or_one_valid ppn flags hfl⟩
  · intro ek m root vpn h
    unfold PageTable.unmap
    rw [h]
  · intro ek m root vpn loc h hv
    unfold PageTable.unmap
    rw [h]
    simp [hv]
  · intro ek m root vpn l0 l1 l2 hw hv h0 h1
    have hleaf : find_pte ek m root vpn = some l2 := by
      unfold find_pte
      rw [hw]
      rfl
    have hun : PageTable.unmap ek m root vpn =
        some (memWrite m l2.1 l2.2 0) := by
      unfold PageTable.unmap
      rw [hleaf]
      simp [hv]
    have hwalk := walk_memWrite_stable ek m root vpn l0 l1 l2 0 hw h0 h1
    have htr : translate ek (memWrite m l2.1 l2.2 0) root vpn =
        some PageTableEntry.empty := by
      unfold translate find_pte
      rw [hwalk]
      simp only [Option.map_some']
      rw [memWrite_self]
      rfl
    exact ⟨hun, htr, pte_zero_invalid⟩
  · intro ek m root vpn
    constructor
    · intro hv0
      have hn : find_pte ek m root vpn = none := by
        unfold find_pte walk
        rw [if_neg (by simp [hv0])]
        rfl
      exact ⟨hn, by unfold translate; rw [hn]; rfl⟩
    · intro hv0 hv1
      have hn : find_pte ek m root vpn = none := by
        unfold find_pte walk
        rw [if_pos hv0, if_neg (by simp [hv1])]
        rfl
      exact ⟨hn, by unfold translate; rw [hn]; rfl⟩

/-- A two-level page-table memory mapping vpn 5 through intermediate nodes
    0x80240 → 0x80241 → 0x80242 (kernel-range page numbers, below the
    `ekernel` threshold). -/
def c4Mem : Mem :=
  memWrite (memWrite memZero 0x80240 0 (PageTableEntry.new 0x80241 1).bits)
    0x80241 0 (PageTableEntry.new 0x80242 1).bits

/-- A frame allocator whose next frames follow the nodes above. -/
def c4Alloc : StackFrameAllocator := ⟨0x80243, 0x80300, []⟩

/-- `c4Mem` after mapping vpn 5 to ppn 0x80250 with flags R|W|U (22). -/
def c4Mem2 : Mem :=
  memWrite c4Mem 0x80242 5 (PageTableEntry.new 0x80250 (22 ||| 1)).bits

/-- C4 witness: the parts of `page_table_ops_spec` instantiated on the
    concrete page table. -/
theorem page_table_ops_spec_witness :
    PageTable.map 0x80200000 c4Mem c4Alloc 0x80240 5 0x80250 22 =
      some (c4Mem2, c4Alloc, []) ∧
    translate 0x80200000 c4Mem2 0x80240 5 =
      some (PageTableEntry.new 0x80250 (22 ||| 1)) ∧
    PageTableEntry.ppn 0x80200000 (PageTableEntry.new 0x80250 (22 ||| 1)) =
      0x80250 ∧
    PageTable.unmap 0x80200000 c4Mem2 0x80240 5 =
      some (memWrite c4Mem2 0x80242 5 0) ∧
    translate 0x80200000 (memWrite c4Mem2 0x80242 5 0) 0x80240 5 =
      some PageTableEntry.empty ∧
    find_pte 0x80200000 memZero 0x80240 5 = none ∧
    PageTable.unmap 0x80200000 memZero 0x80240 5 = none := by
  have hb := page_table_ops_spec.2.1 0x80200000 c4Mem c4Alloc 0x80240 5
    0x80250 22 c4Mem c4Alloc [] (0x80240, 0) (0x80241, 0) (0x80242, 5)
    rfl (by decide) (by decide) (by decide) (by decide)
    (by decide) (by decide) (by decide)
  have he := page_table_ops_spec.2.2.2.2.1 0x80200000 c4Mem2 0x80240 5
    (0x80240, 0) (0x80241, 0) (0x80242, 5)
    (by decide) (by decide) (by decide) (by decide)
  have hf := (page_table_ops_spec.2.2.2.2.2 0x80200000 memZero 0x80240 5).1
    (by decide)
  have hc := page_table_ops_spec.2.2.1 0x80200000 memZero 0x80240 5 hf.1
  exact ⟨hb.1, hb.2.1, hb.2.2.1, he.1, he.2.1, hf.1, hc⟩

/-! ## C1: sys_mmap (corrected) -/

/-- A task state over untouched memory: empty page table at root 0x80240,
    frames from 0x80241, no areas. -/
def mmapCexState : TaskState :=
  ⟨memZero, ⟨0x80241, 0x80300, []⟩, 0x80240, []⟩

/-- C1 counterexample: the claim says `sys_mmap` returns `-1` (address
    space unchanged) when `prot` is outside `(0,7]`, when `start` is not
    page-aligned, or when `len = 0`.  On all three inputs the call instead
    panics at a kernel `assert!` (result `none`), so it never returns. -/
theorem mmap_bad_args_panic :
    sys_mmap 0x80200000 mmapCexState 0x514000 100 8 = none ∧
    sys_mmap 0x80200000 mmapCexState 0x514001 100 3 = none ∧
    sys_mmap 0x80200000 mmapCexState 0x514000 0 3 = none := by
  exact ⟨rfl, rfl, rfl⟩

/-- C1 amended: bad `prot` (0 or > 7), an unaligned `start`, or `len = 0`
    make `sys_mmap` panic at an `assert!` instead of returning `-1`.  With
    those asserts passed, the call returns `-1` with the state unchanged
    when some VPN of `[start>>12, (start+len)>>12)` already translates
    (note the floor at the upper end: a trailing partial page is not
    checked); otherwise, whenever the call returns, it returns 0 and has
    appended exactly one Framed area covering
    `[start>>12, ceil(start+len)>>12)` with permissions `U` plus R/W/X
    derived from prot bits 0/1/2. -/
theorem mmap_spec (ek : Nat) (s : TaskState) (start len prot : Nat) :
    (prot = 0 ∨ 7 < prot → sys_mmap ek s start len prot = none) ∧
    (vaAligned (vaFrom start) = false → sys_mmap ek s start len prot = none) ∧
    (len = 0 → sys_mmap ek s start len prot = none) ∧
    (0 < prot → prot ≤ 7 → vaAligned (vaFrom start) = true → 0 < len →
      (∃ k, k < vpnFrom (start + len) - vpnFrom start ∧
        (translate ek s.mem s.root (vpnFrom start + k)).isSome = true) →
      sys_mmap ek s start len prot = some (s, -1)) ∧
    (0 < prot → prot ≤ 7 → vaAligned (vaFrom start) = true → 0 < len →
      (∀ k, k < vpnFrom (start + len) - vpnFrom start →
        (translate ek s.mem s.root (vpnFrom start + k)).isSome = false) →
      (sys_mmap ek s start len prot).isSome = true →
      (sys_mmap ek s start len prot).map (fun r => r.2) = some 0 ∧
      (sys_mmap ek s start len prot).map
          (fun r => r.1.areas.map
            (fun ar => (ar.l, ar.r, ar.map_type, ar.map_perm))) =
        some (s.areas.map (fun ar => (ar.l, ar.r, ar.map_type, ar.map_perm))
          ++ [(vaFloor (vaFrom start), vaCeil (vaFrom (start + len)),
            MapTypeM.framed, mmapPerm prot)])) := by
  refine ⟨?_, ?_, ?_, ?_, ?_⟩
  · intro h
    simp only [sys_mmap]
    rw [if_pos (by omega)]
  · intro h
    simp only [sys_mmap]
    by_cases h1 : ¬ (0 < prot ∧ prot ≤ 7)
    · rw [if_pos h1]
    · rw [if_neg h1, if_pos (by simp [h])]
  · intro h
    simp only [sys_mmap]
    by_cases h1 : ¬ (0 < prot ∧ prot ≤ 7)
    · rw [if_pos h1]
    · rw [if_neg h1]
      by_cases h2 : ¬ vaAligned (vaFrom start) = true
      · rw [if_pos h2]
      · rw [if_neg h2, if_pos h]
  · intro hp1 hp2 hal hlen hex
    simp only [sys_mmap]
    rw [if_neg (by omega), if_neg (by simp [hal]), if_neg (by omega)]
    have hany : (List.range (vpnFrom (start + len) - vpnFrom start)).any
        (fun k => (translate ek s.mem s.root (vpnFrom start + k)).isSome) =
        true := by
      rw [List.any_eq_true]
      obtain ⟨k, hk, htr⟩ := hex
      exact ⟨k, List.mem_range.mpr hk, htr⟩
    rw [if_pos (by simp [hany])]
  · intro hp1 hp2 hal hlen hall hsome
    simp only [sys_mmap] at hsome ⊢
    rw [if_neg (by omega), if_neg (by simp [hal]), if_neg (by omega)]
      at hsome ⊢
    have hany : (List.range (vpnFrom (start + len) - vpnFrom start)).any
        (fun k => (translate ek s.mem s.root (vpnFrom start + k)).isSome) =
        false := by
      rw [List.any_eq_false]
      intro k hk
      simp [hall k (List.mem_range.mp hk)]
    rw [if_neg (by simp [hany])] at hsome ⊢
    by_cases hlr : vaFloor (vaFrom start) > vaCeil (vaFrom (start + len))
    · rw [if_pos hlr] at hsome
      simp at hsome
    · rw [if_neg hlr] at hsome ⊢
      cases hmr : mapAll ek s.mem s.falloc s.root .framed (mmapPerm prot)
          (vaFloor (vaFrom start)) (vaCeil (vaFrom (start + len))) with
      | none =>
        rw [hmr] at hsome
        simp at hsome
      | some trip =>
        obtain ⟨m1, a1, df⟩ := trip
        constructor
        · rfl
        · simp

/-- C1 witness: a successful one-page mmap at 0x514000 and a `-1` on a
    range already containing a mapped vpn. -/
theorem mmap_spec_witness :
    ((sys_mmap 0x80200000 mmapCexState 0x514000 100 3).map (fun r => r.2) =
      some 0 ∧
    (sys_mmap 0x80200000 mmapCexState 0x514000 100 3).map
        (fun r => r.1.areas.map
          (fun ar => (ar.l, ar.r, ar.map_type, ar.map_perm))) =
      some [(0x514, 0x515, MapTypeM.framed, 22)]) ∧
    sys_mmap 0x80200000 (TaskState.mk c4Mem2 c4Alloc 0x80240 []) 0x5000
      0x1000 3 = some (TaskState.mk c4Mem2 c4Alloc 0x80240 [], -1) := by
  have h5 := (mmap_spec 0x80200000 mmapCexState 0x514000 100 3).2.2.2.2
    (by decide) (by decide) (by decide) (by decide)
    (by
      intro k hk
      rw [show vpnFrom (0x514000 + 100) - vpnFrom 0x514000 = 0 from rfl] at hk
      exact absurd hk (Nat.not_lt_zero k))
    (by decide)
  have h4 := (mmap_spec 0x80200000 (TaskState.mk c4Mem2 c4Alloc 0x80240 [])
      0x5000 0x1000 3).2.2.2.1
    (by decide) (by decide) (by decide) (by decide)
    ⟨0, by decide, by decide⟩
  refine ⟨⟨h5.1, ?_⟩, h4⟩
  rw [h5.2]
  decide

/-! ## C2: sys_munmap (corrected) -/

/-- Reading the zeroed page. -/
theorem pageZero_read_self (m : Mem) (p i : Nat) : pageZero m p p i = 0 := by
  simp [pageZero]

/-- Reading another page. -/
theorem pageZero_read_other (m : Mem) (p q i : Nat) (h : q ≠ p) :
    pageZero m p q i = m q i := by
  simp [pageZero, h]

/-- A walk that succeeds after zeroing a page also succeeds, with the same
    slots, before the zeroing (zeroing only invalidates entries). -/
theorem walk_pageZero_some (ek : Nat) (m : Mem) (p root vpn : Nat)
    (t : (Nat × Nat) × (Nat × Nat) × (Nat × Nat))
    (hw : walk ek (pageZero m p) root vpn = some t) :
    walk ek m root vpn = some t := by
  unfold walk at hw ⊢
  by_cases hr : root = p
  · rw [hr, pageZero_read_self] at hw
    rw [if_neg (by decide)] at hw
    exact absurd hw (by simp)
  · rw [pageZero_read_other m p root (vpnIndexes vpn).1 hr] at hw
    by_cases hv0 : PageTableEntry.isValid ⟨m root (vpnIndexes vpn).1⟩
    · rw [if_pos hv0] at hw ⊢
      by_cases hp1 : PageTableEntry.ppn ek ⟨m root (vpnIndexes vpn).1⟩ = p
      · rw [hp1, pageZero_read_self] at hw
        rw [if_neg (by decide)] at hw
        exact absurd hw (by simp)
      · rw [pageZero_read_other m p _ (vpnIndexes vpn).2.1 hp1] at hw
        by_cases hv1 : PageTableEntry.isValid
            ⟨m (PageTableEntry.ppn ek ⟨m root (vpnIndexes vpn).1⟩)
              (vpnIndexes vpn).2.1⟩
        · rw [if_pos hv1] at hw ⊢
          exact hw
        · rw [if_neg hv1] at hw
          exact absurd hw (by simp)
    · rw [if_neg hv0] at hw
      exact absurd hw (by simp)

/-- `PageTable::unmap` panics when the leaf is present but invalid. -/
theorem unmap_invalid_none (ek : Nat) (m : Mem) (root vpn : Nat)
    (pte : PageTableEntry) (h : translate ek m root vpn = some pte)
    (hv : pte.isValid = false) : PageTable.unmap ek m root vpn = none := by
  unfold translate at h
  cases hf : find_pte ek m root vpn with
  | none =>
    rw [hf] at h
    simp at h
  | some loc =>
    rw [hf] at h
    simp only [Option.map_some', Option.some.injEq] at h
    unfold PageTable.unmap
    rw [hf]
    simp [h, hv]

/-- `PageTable::unmap` still panics after any page has additionally been
    zeroed (the vpn's entry stays invalid or the walk fails outright). -/
theorem unmap_pageZero_none (ek : Nat) (m : Mem) (p root vpn : Nat)
    (pte : PageTableEntry) (h : translate ek m root vpn = some pte)
    (hv : pte.isValid = false) :
    PageTable.unmap ek (pageZero m p) root vpn = none := by
  unfold PageTable.unmap
  cases hf : find_pte ek (pageZero m p) root vpn with
  | none => rfl
  | some loc =>
    unfold find_pte at hf
    cases hwz : walk ek (pageZero m p) root vpn with
    | none =>
      rw [hwz] at hf
      simp at hf
    | some t =>
      rw [hwz] at hf
      simp only [Option.map_some', Option.some.injEq] at hf
      have hwm := walk_pageZero_some ek m p root vpn t hwz
      have htr : translate ek m root vpn = some ⟨m t.2.2.1 t.2.2.2⟩ := by
        unfold translate find_pte
        rw [hwm]
        rfl
      rw [htr] at h
      simp only [Option.some.injEq] at h
      rw [hf] at h
      have hinv : PageTableEntry.isValid ⟨pageZero m p loc.1 loc.2⟩ =
          false := by
        by_cases hl : loc.1 = p
        · rw [hl, pageZero_read_self]
          decide
        · rw [pageZero_read_other m p loc.1 loc.2 hl, h]
          exact hv
      simp [hinv]

/-- `MapArea::unmap_one` panics whenever the vpn's leaf entry is present
    but invalid (whatever the area's type and `data_frames`). -/
theorem unmap_one_invalid_none (ek : Nat) (m : Mem)
    (a : StackFrameAllocator) (root : Nat) (area : MapAreaM) (vpn : Nat)
    (pte : PageTableEntry) (h : translate ek m root vpn = some pte)
    (hv : pte.isValid = false) :
    unmap_one ek m a root area vpn = none := by
  unfold unmap_one
  cases hty : area.map_type with
  | identical =>
    simp [unmap_invalid_none ek m root vpn pte h hv]
  | framed =>
    cases hdf : dfLookup area.data_frames vpn with
    | none =>
      simp [hdf, unmap_invalid_none ek m root vpn pte h hv]
    | some ppn =>
      cases hde : a.dealloc m ppn with
      | none => simp [hdf, hde]
      | some pr =>
        obtain ⟨a1, m1⟩ := pr
        have hm1 : m1 = pageZero m ppn := by
          unfold StackFrameAllocator.dealloc at hde
          by_cases hcc : ppn ≥ a.current ∨ ppn ∈ a.recycled
          · rw [if_pos hcc] at hde
            exact absurd hde (by simp)
          · rw [if_neg hcc] at hde
            simp only [Option.some.injEq, Prod.mk.injEq] at hde
            exact hde.2.symm
        subst hm1
        simp [hdf, hde, unmap_pageZero_none ek m ppn root vpn pte h hv]

/-- The unmap loop of `sys_munmap` panics when the cursor's entry is
    present but invalid and some area contains the cursor. -/
theorem munmapLoop_none (ek root : Nat) :
    ∀ (areas : List MapAreaM) (m : Mem) (a : StackFrameAllocator)
      (acc : List MapAreaM) (sv : Nat) (pte : PageTableEntry),
      translate ek m root sv = some pte → pte.isValid = false →
      (∃ ar ∈ areas, ar.contain sv = true) →
      areas.foldlM (munmapStep ek root) (m, a, sv, acc) = none := by
  intro areas
  induction areas with
  | nil =>
    intro m a acc sv pte h hv hex
    obtain ⟨x, hx, _⟩ := hex
    exact absurd hx (List.not_mem_nil x)
  | cons ar rest ih =>
    intro m a acc sv pte h hv hex
    rw [List.foldlM_cons]
    by_cases hc : ar.contain sv = true
    · have hstep : munmapStep ek root (m, a, sv, acc) ar = none := by
        unfold munmapStep
        rw [if_pos hc, unmap_one_invalid_none ek m a root ar sv pte h hv]
      rw [hstep]
      rfl
    · have hstep : munmapStep ek root (m, a, sv, acc) ar =
          some (m, a, sv, acc ++ [ar]) := by
        unfold munmapStep
        rw [if_neg hc]
      rw [hstep]
      have hex2 : ∃ x ∈ rest, x.contain sv = true := by
        obtain ⟨x, hx, hcx⟩ := hex
        rcases List.mem_cons.mp hx with hx1 | hx2
        · exact absurd (hx1 ▸ hcx) hc
        · exact ⟨x, hx2, hcx⟩
      exact ih m a (acc ++ [ar]) sv pte h hv hex2

/-- C2 amended: the not-mapped check of `sys_munmap` does not test the
    range's own VPNs — each page number of `[start>>12, (start+len)>>12)`
    is converted back through `From<usize> for VirtPageNum`, which shifts
    by 12 again, so the vpn translated is `(vpn & (2^39-1)) >> 12`.  If one
    of those re-shifted vpns does not translate, the call returns `-1` and
    nothing is unmapped.  When the check passes (which it can even though a
    VPN of the range itself does not translate), the loop unmaps at most
    one page per area; and an immediately repeated call does not return
    `-1`: whenever the page at `start>>12` has an invalid-but-present leaf
    entry (exactly the state `unmap` leaves behind, since the intermediate
    nodes survive) and some area still contains that vpn, the repeated
    call panics at the `assert!` in `PageTable::unmap`. -/
theorem munmap_spec :
    (∀ (ek : Nat) (s : TaskState) (start len k : Nat),
      k < vpnFrom (start + len) - vpnFrom start →
      translate ek s.mem s.root (vpnFrom (vpnFrom start + k)) = none →
      sys_munmap ek s start len = some (s, -1)) ∧
    (∀ (ek : Nat) (s : TaskState) (start len : Nat)
      (pte : PageTableEntry),
      (∀ k, k < vpnFrom (start + len) - vpnFrom start →
        (translate ek s.mem s.root (vpnFrom (vpnFrom start + k))).isNone =
          false) →
      (∃ ar ∈ s.areas, ar.contain (vpnFrom start) = true) →
      translate ek s.mem s.root (vpnFrom start) = some pte →
      pte.isValid = false →
      sys_munmap ek s start len = none) := by
  constructor
  · intro ek s start len k hk htr
    simp only [sys_munmap]
    have hany : (List.range (vpnFrom (start + len) - vpnFrom start)).any
        (fun j =>
          (translate ek s.mem s.root (vpnFrom (vpnFrom start + j))).isNone) =
        true := by
      rw [List.any_eq_true]
      exact ⟨k, List.mem_range.mpr hk, by simp [htr]⟩
    rw [if_pos (by simp [hany])]
  · intro ek s start len pte hchk hex hpte hv
    simp only [sys_munmap]
    have hany : (List.range (vpnFrom (start + len) - vpnFrom start)).any
        (fun j =>
          (translate ek s.mem s.root (vpnFrom (vpnFrom start + j))).isNone) =
        false := by
      rw [List.any_eq_false]
      intro k hk
      simp [hchk k (List.mem_range.mp hk)]
    rw [if_neg (by simp [hany])]
    rw [munmapLoop_none ek s.root s.areas s.mem s.falloc [] (vpnFrom start)
      pte hpte hv hex]

/-- A one-page user area `[0x514, 0x515)` backed by frame 0x80243. -/
def c2Area : MapAreaM := ⟨0x514, 0x515, .framed, 22, [(0x514, 0x80243)]⟩

/-- A page table mapping vpn 0x514 (indexes 0, 2, 0x114) to ppn 0x80243
    with flags V|R|W|U. -/
def c2Mem : Mem :=
  memWrite (memWrite (memWrite memZero
    0x80240 0 (PageTableEntry.new 0x80241 1).bits)
    0x80241 2 (PageTableEntry.new 0x80242 1).bits)
    0x80242 0x114 (PageTableEntry.new 0x80243 23).bits

/-- The state right after `mmap(0x514000, 100, 3)`. -/
def c2State : TaskState :=
  ⟨c2Mem, ⟨0x80244, 0x80300, []⟩, 0x80240, [c2Area]⟩

/-- A page table mapping vpn 0 (indexes 0, 0, 0) to ppn 0x80246 and vpn
    0x5FF (indexes 0, 2, 0x1FF) to ppn 0x80244, both with flags V|R|W|U;
    level-1 slot 3 is empty, so vpn 0x600 does not translate at all. -/
def c2MemB : Mem :=
  memWrite (memWrite (memWrite (memWrite (memWrite memZero
    0x80240 0 (PageTableEntry.new 0x80241 1).bits)
    0x80241 0 (PageTableEntry.new 0x80242 1).bits)
    0x80241 2 (PageTableEntry.new 0x80243 1).bits)
    0x80242 0 (PageTableEntry.new 0x80246 23).bits)
    0x80243 0x1FF (PageTableEntry.new 0x80244 23).bits

/-- A state with one Framed area `[0x5FF, 0x600)` backed by frame 0x80244,
    over `c2MemB`. -/
def c2StateB : TaskState :=
  ⟨c2MemB, ⟨0x80245, 0x80300, []⟩, 0x80240,
    [⟨0x5FF, 0x600, .framed, 22, [(0x5FF, 0x80244)]⟩]⟩

/-- C2 counterexample, two refutations.  First, the claim's `-1`-on-
    unmapped-page sentence: in `c2StateB` the two-page call
    `munmap(0x5FF000, 0x2000)` covers vpn 0x600, which does not translate
    (its level-1 entry is empty), yet the call returns 0 — the check loop
    converts each page number through `From<usize> for VirtPageNum`, so it
    translates `0x5FF >> 12 = 0` and `0x600 >> 12 = 0` (vpn 0 is mapped)
    instead of the range's own vpns.  Second, the repeat-returns-`-1`
    sentence: in the state after `mmap(0x514000, 100, 3)` the first
    `munmap(0x514000, 100)` returns 0 and the repeated call panics (at the
    `assert!(pte.is_valid())` inside `PageTable::unmap`) instead of
    returning `-1`. -/
theorem munmap_repeat_panics :
    (translate 0x80200000 c2StateB.mem c2StateB.root 0x600 = none ∧
    (sys_munmap 0x80200000 c2StateB 0x5FF000 0x2000).map (fun r => r.2) =
      some 0) ∧
    (sys_munmap 0x80200000 c2State 0x514000 100).map (fun r => r.2) =
      some 0 ∧
    (sys_munmap 0x80200000 c2State 0x514000 100).bind
      (fun r => sys_munmap 0x80200000 r.1 0x514000 100) = none := by
  exact ⟨⟨rfl, rfl⟩, rfl, rfl⟩

/-- The state after the first successful `munmap(0x514000, 100)`:
    the data frame is zeroed and recycled, the leaf entry cleared, the
    area's `data_frames` emptied (its vpn range untouched). -/
def c2State2 : TaskState :=
  ⟨memWrite (pageZero c2Mem 0x80243) 0x80242 0x114 0,
    ⟨0x80244, 0x80300, [0x80243]⟩, 0x80240,
    [⟨0x514, 0x515, .framed, 22, []⟩]⟩

/-- C2 witness: both parts of `munmap_spec` at concrete states: a `-1` on
    an untranslated range, and the panic of the repeated call. -/
theorem munmap_spec_witness :
    sys_munmap 0x80200000 mmapCexState 0x5000 0x1000 =
      some (mmapCexState, -1) ∧
    sys_munmap 0x80200000 c2State2 0x514000 100 = none := by
  constructor
  · exact munmap_spec.1 0x80200000 mmapCexState 0x5000 0x1000 0
      (by decide) (by decide)
  · exact munmap_spec.2 0x80200000 c2State2 0x514000 100
      PageTableEntry.empty
      (by
        intro k hk
        rw [show vpnFrom (0x514000 + 100) - vpnFrom 0x514000 = 0 from rfl]
          at hk
        exact absurd hk (Nat.not_lt_zero k))
      ⟨⟨0x514, 0x515, .framed, 22, []⟩, by simp [c2State2], by decide⟩
      rfl (by decide)

/-! ## C6 and C7: easy-fs bitmap alloc / dealloc -/

/-- The bit at `trailing_ones` is clear (for lanes within the fuel's
    range). -/
theorem trailingOnesAux_testBit :
    ∀ (fuel x : Nat), x < 2 ^ fuel →
      Nat.testBit x (trailingOnesAux fuel x) = false := by
  intro fuel
  induction fuel with
  | zero =>
    intro x hx
    have hx0 : x = 0 := by omega
    subst hx0
    simp [trailingOnesAux]
  | succ fuel ih =>
    intro x hx
    simp only [trailingOnesAux]
    by_cases h : x % 2 = 1
    · rw [if_pos h, Nat.testBit_add_one]
      apply ih
      have h2 : (2 : Nat) ^ (fuel + 1) = 2 * 2 ^ fuel := by
        rw [Nat.pow_succ]
        ring
      omega
    · rw [if_neg h]
      simp [Nat.testBit_zero, h]

/-- Every bit below `trailing_ones` is set. -/
theorem trailingOnesAux_lt_testBit :
    ∀ (fuel x j : Nat), j < trailingOnesAux fuel x →
      Nat.testBit x j = true := by
  intro fuel
  induction fuel with
  | zero =>
    intro x j hj
    simp [trailingOnesAux] at hj
  | succ fuel ih =>
    intro x j hj
    simp only [trailingOnesAux] at hj
    by_cases h : x % 2 = 1
    · rw [if_pos h] at hj
      cases j with
      | zero => simp [Nat.testBit_zero, h]
      | succ j =>
        rw [Nat.testBit_add_one]
        exact ih (x / 2) j (by omega)
    · rw [if_neg h] at hj
      omega

/-- A non-full u64 lane has fewer than 64 trailing ones. -/
theorem trailingOnes_lt_64 (x : Nat) (hx : x < 2 ^ 64) (hne : x ≠ u64MAX) :
    trailingOnes x < 64 := by
  by_contra hge
  push_neg at hge
  apply hne
  apply Nat.eq_of_testBit_eq
  intro j
  unfold u64MAX
  rw [Nat.testBit_two_pow_sub_one]
  rcases Nat.lt_or_ge j 64 with hj | hj
  · rw [trailingOnesAux_lt_testBit 64 x j (by unfold trailingOnes at hge; omega)]
    simp [hj]
  · rw [Nat.testBit_lt_two_pow
      (Nat.lt_of_lt_of_le hx (Nat.pow_le_pow_right (by omega) hj))]
    have hnj : ¬ j < 64 := by omega
    simp [hnj]

/-- Splitting `List.range n` around an element determines the prefix. -/
theorem range_decomp_prefix {n b : Nat} {pre post : List Nat}
    (h : List.range n = pre ++ b :: post) :
    pre = List.range b ∧ b < n := by
  have hlen : n = pre.length + post.length + 1 := by
    have hl := congrArg List.length h
    simp [List.length_append] at hl
    omega
  have hplt : pre.length < n := by omega
  have h1 : (List.range n)[pre.length]? = some b := by
    rw [h, List.getElem?_append_right (Nat.le_refl pre.length)]
    simp
  rw [List.getElem?_range hplt] at h1
  have hb : b = pre.length := (Option.some.inj h1).symm
  have hpre : List.range (min pre.length n) = pre := by
    rw [← List.take_range, h, List.take_left]
  rw [Nat.min_eq_left (by omega)] at hpre
  subst hb
  exact ⟨hpre.symm, by omega⟩

/-- `find?` over `List.range` returns the least index satisfying the
    property. -/
theorem find?_range_minimal {n b : Nat} {p : Nat → Bool}
    (h : (List.range n).find? p = some b) :
    b < n ∧ p b = true ∧ ∀ j, j < b → p j = false := by
  rw [List.find?_eq_some] at h
  obtain ⟨hp, as, bs, heq, hall⟩ := h
  obtain ⟨hpre, hbn⟩ := range_decomp_prefix heq
  refine ⟨hbn, hp, fun j hj => ?_⟩
  have hmem : j ∈ as := by
    rw [hpre]
    exact List.mem_range.mpr hj
  simpa using hall j hmem

/-- `findLane` fails exactly on a completely full block. -/
theorem findLane_none_iff (blk : Nat → Nat) :
    findLane blk = none ↔ ∀ j, j < 64 → blk j = u64MAX := by
  unfold findLane
  rw [List.find?_eq_none]
  constructor
  · intro h j hj
    have := h j (List.mem_range.mpr hj)
    simpa using this
  · intro h j hj
    simp [h j (List.mem_range.mp hj)]

/-- `findLane` returns the first non-full lane. -/
theorem findLane_some_spec (blk : Nat → Nat) (j : Nat)
    (h : findLane blk = some j) :
    j < 64 ∧ blk j ≠ u64MAX ∧ ∀ t, t < j → blk t = u64MAX := by
  unfold findLane at h
  have hm := find?_range_minimal h
  refine ⟨hm.1, by simpa using hm.2.1, fun t ht => ?_⟩
  have := hm.2.2 t ht
  simpa using this

/-- Reading the written lane. -/
theorem diskWrite_self (d : DiskBM) (b j v : Nat) :
    diskWrite d b j v b j = v := by
  simp [diskWrite]

/-- Reading any other lane. -/
theorem diskWrite_other (d : DiskBM) (b j v b1 j1 : Nat)
    (h : ¬ (b1 = b ∧ j1 = j)) : diskWrite d b j v b1 j1 = d b1 j1 := by
  simp only [diskWrite]
  rw [if_neg h]

/-- The scan of `Bitmap::alloc` over a block-id list: it fails exactly when
    every listed block is full, and a success comes from the first non-full
    block with everything before it full. -/
theorem bitmapAllocGo_spec (start : Nat) :
    ∀ (ids : List Nat) (d : DiskBM),
      ((bitmapAllocGo start d ids).2 = none ↔
        ∀ b ∈ ids, ∀ j, j < 64 → d (b + start) j = u64MAX) ∧
      (∀ (d1 : DiskBM) (idx : Nat),
        bitmapAllocGo start d ids = (d1, some idx) →
        ∃ pre b post j, ids = pre ++ b :: post ∧
          (∀ b' ∈ pre, ∀ j', j' < 64 → d (b' + start) j' = u64MAX) ∧
          findLane (d (b + start)) = some j ∧
          idx = b * BLOCK_BITS + j * 64 +
            trailingOnes (d (b + start) j) ∧
          d1 = diskWrite d (b + start) j
            (d (b + start) j |||
              (1 <<< trailingOnes (d (b + start) j)))) := by
  intro ids
  induction ids with
  | nil =>
    intro d
    constructor
    · constructor
      · intro _ b hb
        exact absurd hb (List.not_mem_nil b)
      · intro _
        rfl
    · intro d1 idx h
      simp [bitmapAllocGo] at h
  | cons b0 rest ih =>
    intro d
    constructor
    · simp only [bitmapAllocGo]
      cases hfl : findLane (d (b0 + start)) with
      | some j =>
        rw [show allocInBlock d (b0 + start) b0 =
            (diskWrite d (b0 + start) j
              (d (b0 + start) j |||
                (1 <<< trailingOnes (d (b0 + start) j))),
             some (b0 * BLOCK_BITS + j * 64 +
               trailingOnes (d (b0 + start) j)))
            from by simp [allocInBlock, hfl]]
        constructor
        · intro h
          exact absurd h (by simp)
        · intro hall
          have hn := (findLane_none_iff (d (b0 + start))).mpr
            (fun j' hj' => hall b0 (by simp) j' hj')
          rw [hfl] at hn
          exact absurd hn (by simp)
      | none =>
        rw [show allocInBlock d (b0 + start) b0 = (d, none)
          from by simp [allocInBlock, hfl]]
        rw [(ih d).1]
        constructor
        · intro h b hb j hj
          rcases List.mem_cons.mp hb with hb0 | hbr
          · subst hb0
            exact (findLane_none_iff (d (b + start))).mp hfl j hj
          · exact h b hbr j hj
        · intro h b hb j hj
          exact h b (List.mem_cons_of_mem b0 hb) j hj
    · intro d1 idx h
      simp only [bitmapAllocGo] at h
      cases hfl : findLane (d (b0 + start)) with
      | some j =>
        rw [show allocInBlock d (b0 + start) b0 =
            (diskWrite d (b0 + start) j
              (d (b0 + start) j |||
                (1 <<< trailingOnes (d (b0 + start) j))),
             some (b0 * BLOCK_BITS + j * 64 +
               trailingOnes (d (b0 + start) j)))
            from by simp [allocInBlock, hfl]] at h
        simp only [Prod.mk.injEq, Option.some.injEq] at h
        exact ⟨[], b0, rest, j, rfl,
          by intro b' hb'; exact absurd hb' (List.not_mem_nil b'),
          hfl, h.2.symm, h.1.symm⟩
      | none =>
        rw [show allocInBlock d (b0 + start) b0 = (d, none)
          from by simp [allocInBlock, hfl]] at h
        obtain ⟨pre, b, post, j, heq, hpre, hfl2, hidx, hd1⟩ :=
          (ih d).2 d1 idx h
        refine ⟨b0 :: pre, b, post, j, by rw [heq]; rfl, ?_, hfl2, hidx, hd1⟩
        intro b' hb' j' hj'
        rcases List.mem_cons.mp hb' with hb0 | hbr
        · subst hb0
          exact (findLane_none_iff (d (b' + start))).mp hfl j' hj'
        · exact hpre b' hbr j' hj'

/-- C6: `Bitmap::alloc` scans blocks in increasing order; it fails exactly
    when every lane of every block is all-ones (equivalently, with lanes
    in u64 range, when every bit is set — the last conjunct); a success
    `idx` decomposes as `(block, lane, inner)` where every earlier block is
    full, every earlier lane of that block is full, `inner` is the lowest
    zero bit of the first non-full lane (`trailing_ones`), and the new
    state has exactly that bit set. -/
theorem bitmap_alloc_spec (bm : BitmapSt) (d : DiskBM)
    (hbound : ∀ b j, d b j < 2 ^ 64) :
    ((Bitmap.alloc bm d).2 = none ↔
      ∀ b, b < bm.n_blocks → ∀ j, j < 64 →
        d (b + bm.start_block_id) j = u64MAX) ∧
    (∀ (d1 : DiskBM) (idx : Nat), Bitmap.alloc bm d = (d1, some idx) →
      (decomposition idx).1 < bm.n_blocks ∧
      (decomposition idx).2.1 < 64 ∧
      (decomposition idx).2.2 = trailingOnes
        (d ((decomposition idx).1 + bm.start_block_id)
          (decomposition idx).2.1) ∧
      (∀ b', b' < (decomposition idx).1 → ∀ j', j' < 64 →
        d (b' + bm.start_block_id) j' = u64MAX) ∧
      (∀ j', j' < (decomposition idx).2.1 →
        d ((decomposition idx).1 + bm.start_block_id) j' = u64MAX) ∧
      d ((decomposition idx).1 + bm.start_block_id)
        (decomposition idx).2.1 ≠ u64MAX ∧
      Nat.testBit (d ((decomposition idx).1 + bm.start_block_id)
        (decomposition idx).2.1) (decomposition idx).2.2 = false ∧
      (∀ t, t < (decomposition idx).2.2 →
        Nat.testBit (d ((decomposition idx).1 + bm.start_block_id)
          (decomposition idx).2.1) t = true) ∧
      d1 = diskWrite d ((decomposition idx).1 + bm.start_block_id)
        (decomposition idx).2.1
        (d ((decomposition idx).1 + bm.start_block_id)
          (decomposition idx).2.1 |||
          (1 <<< (decomposition idx).2.2)) ∧
      Nat.testBit (d1 ((decomposition idx).1 + bm.start_block_id)
        (decomposition idx).2.1) (decomposition idx).2.2 = true) ∧
    (∀ x : Nat, x < 2 ^ 64 →
      (x = u64MAX ↔ ∀ t, t < 64 → Nat.testBit x t = true)) := by
  refine ⟨?_, ?_, ?_⟩
  · unfold Bitmap.alloc
    rw [(bitmapAllocGo_spec bm.start_block_id (List.range bm.n_blocks) d).1]
    constructor
    · intro h b hb j hj
      exact h b (List.mem_range.mpr hb) j hj
    · intro h b hb j hj
      exact h b (List.mem_range.mp hb) j hj
  · intro d1 idx h
    obtain ⟨pre, b, post, j, heq, hpre, hfl, hidx, hd1⟩ :=
      (bitmapAllocGo_spec bm.start_block_id (List.range bm.n_blocks) d).2
        d1 idx h
    obtain ⟨hpreeq, hbn⟩ := range_decomp_prefix heq
    obtain ⟨hj64, hne, hfirst⟩ := findLane_some_spec _ j hfl
    have hinner : trailingOnes (d (b + bm.start_block_id) j) < 64 :=
      trailingOnes_lt_64 _ (hbound _ _) hne
    have hdec : decomposition idx =
        (b, j, trailingOnes (d (b + bm.start_block_id) j)) := by
      unfold decomposition
      unfold BLOCK_BITS BLOCK_SZ at hidx ⊢
      simp only [Prod.mk.injEq]
      omega
    rw [hdec]
    refine ⟨hbn, hj64, rfl, ?_, hfirst, hne, ?_, ?_, hd1, ?_⟩
    · intro b' hb' j' hj'
      apply hpre b'
      · rw [hpreeq]
        exact List.mem_range.mpr hb'
      · exact hj'
    · exact trailingOnesAux_testBit 64 _ (hbound _ _)
    · intro t ht
      exact trailingOnesAux_lt_testBit 64 _ t ht
    · rw [hd1, diskWrite_self, Nat.one_shiftLeft]
      exact testBit_lor_two_pow_self _ _
  · intro x hx
    constructor
    · intro hxe t ht
      subst hxe
      unfold u64MAX
      rw [Nat.testBit_two_pow_sub_one]
      simp [ht]
    · intro h
      apply Nat.eq_of_testBit_eq
      intro t
      unfold u64MAX
      rw [Nat.testBit_two_pow_sub_one]
      rcases Nat.lt_or_ge t 64 with ht | ht
      · rw [h t ht]
        simp [ht]
      · rw [Nat.testBit_lt_two_pow
          (Nat.lt_of_lt_of_le hx (Nat.pow_le_pow_right (by omega) ht))]
        have hnt : ¬ t < 64 := by omega
        simp [hnt]

/-- C7: the alloc/dealloc round trip — deallocating the index just
    allocated restores every lane to its pre-alloc value — and `dealloc`
    of a clear bit panics at the assert. -/
theorem bitmap_dealloc_spec (bm : BitmapSt) (d : DiskBM)
    (hbound : ∀ b j, d b j < 2 ^ 64) :
    (∀ (d1 : DiskBM) (idx : Nat), Bitmap.alloc bm d = (d1, some idx) →
      ∀ b j, (Bitmap.dealloc bm d1 idx).map (fun d2 => d2 b j) =
        some (d b j)) ∧
    (∀ bit : Nat,
      Nat.testBit (d (bit / BLOCK_BITS + bm.start_block_id)
        (bit % BLOCK_BITS / 64)) (bit % BLOCK_BITS % 64) = false →
      Bitmap.dealloc bm d bit = none) := by
  constructor
  · intro d1 idx h bq jq
    obtain ⟨pre, b, post, j, heq, hpre, hfl, hidx, hd1⟩ :=
      (bitmapAllocGo_spec bm.start_block_id (List.range bm.n_blocks) d).2
        d1 idx h
    obtain ⟨hj64, hne, hfirst⟩ := findLane_some_spec _ j hfl
    have hinner : trailingOnes (d (b + bm.start_block_id) j) < 64 :=
      trailingOnes_lt_64 _ (hbound _ _) hne
    have hclear : Nat.testBit (d (b + bm.start_block_id) j)
        (trailingOnes (d (b + bm.start_block_id) j)) = false :=
      trailingOnesAux_testBit 64 _ (hbound _ _)
    have hdec : decomposition idx =
        (b, j, trailingOnes (d (b + bm.start_block_id) j)) := by
      unfold decomposition
      unfold BLOCK_BITS BLOCK_SZ at hidx ⊢
      simp only [Prod.mk.injEq]
      omega
    have hlane1 : d1 (b + bm.start_block_id) j =
        d (b + bm.start_block_id) j |||
          2 ^ trailingOnes (d (b + bm.start_block_id) j) := by
      rw [hd1, diskWrite_self, Nat.one_shiftLeft]
    have hset : 0 < d1 (b + bm.start_block_id) j &&&
        (1 <<< trailingOnes (d (b + bm.start_block_id) j)) := by
      rw [Nat.one_shiftLeft, and_two_pow_pos_iff, hlane1]
      exact testBit_lor_two_pow_self _ _
    have hsub : d1 (b + bm.start_block_id) j -
        (1 <<< trailingOnes (d (b + bm.start_block_id) j)) =
        d (b + bm.start_block_id) j := by
      rw [hlane1, Nat.one_shiftLeft]
      exact lor_two_pow_sub _ _ hclear
    have hde : Bitmap.dealloc bm d1 idx =
        some (diskWrite d1 (b + bm.start_block_id) j
          (d (b + bm.start_block_id) j)) := by
      unfold Bitmap.dealloc
      rw [hdec]
      simp only
      rw [if_pos hset, hsub]
    rw [hde]
    simp only [Option.map_some', Option.some.injEq]
    by_cases hq : bq = b + bm.start_block_id ∧ jq = j
    · rw [hq.1, hq.2, diskWrite_self]
    · rw [diskWrite_other _ _ _ _ _ _ hq, hd1,
        diskWrite_other _ _ _ _ _ _ hq]
  · intro bit hclear
    unfold Bitmap.dealloc decomposition
    simp only
    rw [if_neg]
    rw [Nat.one_shiftLeft, Nat.and_two_pow, hclear]
    simp

/-- A concrete 2-block bitmap disk: block 100 full; block 101 has lane 0
    full and lane 1 = 7 (three trailing ones, bit 3 clear). -/
def c6Disk : DiskBM := fun b j =>
  if b = 100 then u64MAX
  else if b = 101 ∧ j = 0 then u64MAX
  else if b = 101 ∧ j = 1 then 7
  else 0

/-- The lanes of `c6Disk` are in u64 range. -/
theorem c6Disk_bound : ∀ b j, c6Disk b j < 2 ^ 64 := by
  intro b j
  unfold c6Disk u64MAX
  split
  · omega
  · split
    · omega
    · split <;> omega

/-- An everywhere-full one-block bitmap disk. -/
def c6Full : DiskBM := fun _ _ => u64MAX

/-- The lanes of `c6Full` are in u64 range. -/
theorem c6Full_bound : ∀ b j, c6Full b j < 2 ^ 64 := by
  intro b j
  unfold c6Full u64MAX
  omega

/-- C6 witness: on `c6Disk` with 2 blocks starting at block 100, alloc
    picks block 1, lane 1, inner bit 3 (index 4163) and sets that bit;
    on the full disk it returns `none`. -/
theorem bitmap_alloc_spec_witness :
    ((Bitmap.alloc ⟨100, 2⟩ c6Disk).2 = some 4163 ∧
      (decomposition 4163).2.2 = trailingOnes (c6Disk 101 1) ∧
      c6Disk 101 1 ≠ u64MAX ∧
      Nat.testBit (c6Disk 101 1) 3 = false) ∧
    (Bitmap.alloc ⟨7, 1⟩ c6Full).2 = none := by
  have h6 := bitmap_alloc_spec ⟨100, 2⟩ c6Disk c6Disk_bound
  have halloc : Bitmap.alloc ⟨100, 2⟩ c6Disk =
      ((Bitmap.alloc ⟨100, 2⟩ c6Disk).1, some 4163) := by
    constructor
  have hsome := h6.2.1 (Bitmap.alloc ⟨100, 2⟩ c6Disk).1 4163 halloc
  have hfull := (bitmap_alloc_spec ⟨7, 1⟩ c6Full c6Full_bound).1.mpr
    (fun b _ j _ => rfl)
  exact ⟨⟨by rw [halloc], by decide, hsome.2.2.2.2.2.1,
    hsome.2.2.2.2.2.2.1⟩, hfull⟩

/-- C7 witness: deallocating the just-allocated index 4163 restores the
    touched lane of `c6Disk`, and a dealloc of clear bit 4099 (block 0,
    lane 0, bit 3 of a zero lane at block 107) panics. -/
theorem bitmap_dealloc_spec_witness :
    ((Bitmap.dealloc ⟨100, 2⟩ (Bitmap.alloc ⟨100, 2⟩ c6Disk).1 4163).map
      (fun d2 => d2 101 1) = some 7) ∧
    Bitmap.dealloc ⟨107, 2⟩ c6Disk 3 = none := by
  have h7 := bitmap_dealloc_spec ⟨100, 2⟩ c6Disk c6Disk_bound
  have halloc : Bitmap.alloc ⟨100, 2⟩ c6Disk =
      ((Bitmap.alloc ⟨100, 2⟩ c6Disk).1, some 4163) := by
    constructor
  have hrt := h7.1 (Bitmap.alloc ⟨100, 2⟩ c6Disk).1 4163 halloc 101 1
  have hpanic := (bitmap_dealloc_spec ⟨107, 2⟩ c6Disk c6Disk_bound).2 3
    (by decide)
  exact ⟨by rw [hrt]; decide, hpanic⟩

/-! ## C9: block-cache manager uniqueness (confirmed) -/

/-- `bumpFirst` keeps the block ids. -/
theorem bumpFirst_map_fst :
    ∀ (l : List (Nat × Nat)) (id : Nat),
      (bumpFirst l id).map Prod.fst = l.map Prod.fst := by
  intro l
  induction l with
  | nil => intro id; rfl
  | cons p rest ih =>
    intro id
    simp only [bumpFirst]
    by_cases h : p.1 = id
    · rw [if_pos h]
      simp
    · rw [if_neg h]
      simp [ih id]

/-- `decAt` keeps the block ids. -/
theorem decAt_map_fst :
    ∀ (l : List (Nat × Nat)) (i : Nat),
      (decAt l i).map Prod.fst = l.map Prod.fst := by
  intro l
  induction l with
  | nil => intro i; rfl
  | cons p rest ih =>
    intro i
    cases i with
    | zero =>
      simp only [decAt]
      by_cases h : p.2 > 1
      · rw [if_pos h]
        simp
      · rw [if_neg h]
    | succ i =>
      simp only [decAt, List.map_cons, ih i]

/-- One manager step keeps the block ids duplicate-free: a cache hit only
    bumps a count, an external drop only decrements one, and a miss
    appends the missing id after possibly removing one entry. -/
theorem bcm_step_nodup (mgr mgr2 : BCM) (op : CacheOp)
    (h : (mgr.queue.map Prod.fst).Nodup) (hs : mgr.step op = some mgr2) :
    (mgr2.queue.map Prod.fst).Nodup := by
  cases op with
  | drop i =>
    simp only [BCM.step, BCM.dropHandle, Option.some.injEq] at hs
    rw [← hs]
    simpa [decAt_map_fst] using h
  | get id =>
    simp only [BCM.step, BCM.get_block_cache] at hs
    by_cases hhit : (mgr.queue.find? (fun p => p.1 == id)).isSome
    · rw [if_pos hhit] at hs
      simp only [Option.some.injEq] at hs
      rw [← hs]
      simpa [bumpFirst_map_fst] using h
    · rw [if_neg hhit] at hs
      have hid : id ∉ mgr.queue.map Prod.fst := by
        intro hmem
        obtain ⟨p, hp, hfst⟩ := List.mem_map.mp hmem
        apply hhit
        rw [List.find?_isSome]
        exact ⟨p, hp, by simp [hfst]⟩
      have hq : ∀ q : List (Nat × Nat),
          (q.map Prod.fst).Nodup → id ∉ q.map Prod.fst →
          mgr2 = BCM.mk (q ++ [(id, 2)]) →
          (mgr2.queue.map Prod.fst).Nodup := by
        intro q hnd hnm heq
        rw [heq]
        simp only [List.map_append]
        apply List.Nodup.append hnd (by simp)
        intro x hx hxs
        rw [List.map_cons, List.map_nil, List.mem_singleton] at hxs
        have hxe : x = id := hxs
        exact hnm (hxe ▸ hx)
      by_cases hcap : mgr.queue.length = BLOCK_CACHE_SIZE
      · rw [if_pos hcap] at hs
        cases hidx : mgr.queue.findIdx? (fun p => p.2 == 1) with
        | none =>
          rw [hidx] at hs
          exact absurd hs (by simp)
        | some i =>
          rw [hidx] at hs
          simp only [Option.some.injEq] at hs
          have hsub : List.Sublist ((mgr.queue.eraseIdx i).map Prod.fst)
              (mgr.queue.map Prod.fst) :=
            List.Sublist.map Prod.fst (List.eraseIdx_sublist mgr.queue i)
          exact hq (mgr.queue.eraseIdx i) (h.sublist hsub)
            (fun hm => hid (hsub.subset hm)) hs.symm
      · rw [if_neg hcap] at hs
        simp only [Option.some.injEq] at hs
        exact hq mgr.queue h hid hs.symm

/-- C9: from the empty manager, every history of `get_block_cache` calls
    (and handle drops) keeps at most one queue entry per block id. -/
theorem block_cache_unique :
    (∀ (mgr mgr2 : BCM) (op : CacheOp),
      (mgr.queue.map Prod.fst).Nodup → mgr.step op = some mgr2 →
      (mgr2.queue.map Prod.fst).Nodup) ∧
    (∀ (ops : List CacheOp) (mgr : BCM),
      BCM.run ops = some mgr → (mgr.queue.map Prod.fst).Nodup) := by
  refine ⟨bcm_step_nodup, ?_⟩
  have hgen : ∀ (ops : List CacheOp) (m0 mgr : BCM),
      (m0.queue.map Prod.fst).Nodup →
      ops.foldlM BCM.step m0 = some mgr →
      (mgr.queue.map Prod.fst).Nodup := by
    intro ops
    induction ops with
    | nil =>
      intro m0 mgr h0 hr
      simp only [List.foldlM_nil] at hr
      obtain rfl : m0 = mgr := Option.some.inj hr
      exact h0
    | cons op rest ih =>
      intro m0 mgr h0 hr
      rw [List.foldlM_cons] at hr
      cases hstep : m0.step op with
      | none =>
        rw [hstep] at hr
        exact absurd hr (by simp)
      | some m1 =>
        rw [hstep] at hr
        exact ih m1 mgr (bcm_step_nodup m0 m1 op h0 hstep) hr
  intro ops mgr hr
  exact hgen ops ⟨[]⟩ mgr (by simp) hr

/-- C9 witness: a concrete history with a repeated get keeps unique ids. -/
theorem block_cache_unique_witness :
    BCM.run [CacheOp.get 1, CacheOp.get 2, CacheOp.get 1] =
      some ⟨[(1, 3), (2, 2)]⟩ ∧
    ((⟨[(1, 3), (2, 2)]⟩ : BCM).queue.map Prod.fst).Nodup := by
  have hrun : BCM.run [CacheOp.get 1, CacheOp.get 2, CacheOp.get 1] =
      some ⟨[(1, 3), (2, 2)]⟩ := by decide
  exact ⟨hrun, block_cache_unique.2 _ _ hrun⟩

/-! ## C8: Inode::unlink frame effect (confirmed, spec-modelled parts) -/

/-- C8: for a root directory holding a dirent for `name` at slot `k`,
    `unlink(name)` succeeds; afterwards the target inode's size is 0 and
    every one of its blocks is returned to the data bitmap, the 32-byte
    dirent slot `k` is zeroed, the root inode's size field is unchanged
    (not decremented by 32), and every byte outside slot `k` — in
    particular every other dirent slot — is unchanged. -/
theorem unlink_spec (fs : FsState) (name : List Nat) (k : Nat)
    (hdir : fs.root.isDir = true)
    (hfind : findDirentIdx fs.root name = some k) :
    (Inode.unlink fs name).isSome = true ∧
    (Inode.unlink fs name).map
      (fun f2 => (f2.inodes (inodeNumAt fs.root.bytes (DIRENT_SZ * k))).size)
      = some 0 ∧
    (∀ bl, bl ∈ (fs.inodes
        (inodeNumAt fs.root.bytes (DIRENT_SZ * k))).blocks →
      (Inode.unlink fs name).map (fun f2 => f2.dataAlloc bl) = some false) ∧
    (∀ j, DIRENT_SZ * k ≤ j → j < DIRENT_SZ * k + DIRENT_SZ →
      (Inode.unlink fs name).map (fun f2 => f2.root.bytes j) = some 0) ∧
    (Inode.unlink fs name).map (fun f2 => f2.root.size) =
      some fs.root.size ∧
    (∀ j, j < DIRENT_SZ * k ∨ DIRENT_SZ * k + DIRENT_SZ ≤ j →
      (Inode.unlink fs name).map (fun f2 => f2.root.bytes j) =
        some (fs.root.bytes j)) := by
  have hk : k < fs.root.size / DIRENT_SZ := by
    unfold findDirentIdx at hfind
    exact (find?_range_minimal hfind).1
  have hcnt : min DIRENT_SZ (fs.root.size - DIRENT_SZ * k) = DIRENT_SZ := by
    unfold DIRENT_SZ at hk ⊢
    omega
  have hu : Inode.unlink fs name = some (FsState.mk
      (DiskInodeM.mk fs.root.size fs.root.isDir fs.root.blocks
        (fun j => if DIRENT_SZ * k ≤ j ∧ j < DIRENT_SZ * k +
            min DIRENT_SZ (fs.root.size - DIRENT_SZ * k) then 0
          else fs.root.bytes j))
      (fun i => if i = inodeNumAt fs.root.bytes (DIRENT_SZ * k)
        then DiskInodeM.mk 0
          (fs.inodes (inodeNumAt fs.root.bytes (DIRENT_SZ * k))).isDir []
          (fs.inodes (inodeNumAt fs.root.bytes (DIRENT_SZ * k))).bytes
        else fs.inodes i)
      (fun bl => if bl ∈ (fs.inodes
          (inodeNumAt fs.root.bytes (DIRENT_SZ * k))).blocks then false
        else fs.dataAlloc bl)) := by
    unfold Inode.unlink
    rw [if_neg (by simp [hdir]), hfind]
  rw [hu]
  simp only [Option.map_some', Option.some.injEq, Option.isSome_some]
  refine ⟨trivial, by simp, ?_, ?_, trivial, ?_⟩
  · intro bl hbl
    simp [hbl]
  · intro j hj1 hj2
    rw [hcnt]
    simp [hj1, hj2]
  · intro j hj
    rw [hcnt]
    have hout : ¬ (DIRENT_SZ * k ≤ j ∧ j < DIRENT_SZ * k + DIRENT_SZ) := by
      omega
    simp [hout]

/-- A concrete root directory content: two dirents, slot 0 named "a"
    (inode 9), slot 1 named "b" (inode 5). -/
def c8Bytes : Nat → Nat := fun j =>
  if j = 0 then 97
  else if j = 28 then 9
  else if j = 32 then 98
  else if j = 60 then 5
  else 0

/-- A concrete filesystem: root of size 64 (two dirents); inode 5 is a
    100-byte file owning data blocks 10 and 11. -/
def c8Fs : FsState :=
  ⟨⟨64, true, [], c8Bytes⟩,
   fun i => if i = 5 then ⟨100, false, [10, 11], fun _ => 0⟩
     else ⟨0, false, [], fun _ => 0⟩,
   fun bl => bl == 10 || bl == 11⟩

/-- C8 witness: unlinking "b" (byte 98) from `c8Fs` clears inode 5,
    returns block 10, zeroes slot 1 (byte 32), keeps the root size 64 and
    keeps slot 0 (byte 0 still 97). -/
theorem unlink_spec_witness :
    (Inode.unlink c8Fs [98]).isSome = true ∧
    (Inode.unlink c8Fs [98]).map (fun f2 => (f2.inodes 5).size) = some 0 ∧
    (Inode.unlink c8Fs [98]).map (fun f2 => f2.dataAlloc 10) = some false ∧
    (Inode.unlink c8Fs [98]).map (fun f2 => f2.root.bytes 32) = some 0 ∧
    (Inode.unlink c8Fs [98]).map (fun f2 => f2.root.size) = some 64 ∧
    (Inode.unlink c8Fs [98]).map (fun f2 => f2.root.bytes 0) = some 97 := by
  have h := unlink_spec c8Fs [98] 1 rfl (by decide)
  exact ⟨h.1, h.2.1, h.2.2.1 10 (by decide), h.2.2.2.1 32 (by decide)
    (by decide), h.2.2.2.2.1, h.2.2.2.2.2 0 (Or.inl (by decide))⟩

/-! ## C10: translated_byte_buffer (corrected) -/

/-- The loop exits immediately once the cursor reaches the end. -/
theorem tbbGo_done (ek : Nat) (m : Mem) (root endv : Nat) :
    ∀ (fuel s : Nat), ¬ s < endv → tbbGo ek m root endv fuel s = some [] := by
  intro fuel s h
  cases fuel with
  | zero =>
    simp only [tbbGo]
    rw [if_neg h]
  | succ fuel =>
    simp only [tbbGo]
    rw [if_neg h]

/-- The body of `translated_byte_buffer`, characterized for buffers that
    stay below the sign-extension threshold `2^38`: one slice per touched
    page, the first starting at the cursor's page offset, the later ones at
    offset 0, none crossing a page boundary, each on the page the table
    translates for the corresponding consecutive vpn. -/
theorem tbbGo_ind (ek : Nat) (m : Mem) (root endv : Nat)
    (hend : endv < 2 ^ 38) :
    ∀ (fuel start : Nat), endv - start ≤ fuel → start < endv →
      (∀ p, start / 4096 ≤ p → p ≤ (endv - 1) / 4096 →
        (translate ek m root p).isSome = true) →
      ∃ l, tbbGo ek m root endv fuel start = some l ∧
        (l.map (fun s => s.hi - s.lo)).sum = endv - start ∧
        l.length = (endv - 1) / 4096 - start / 4096 + 1 ∧
        ∀ (i : Nat) (hi : i < l.length),
          ((l.get ⟨i, hi⟩).lo = if i = 0 then start % 4096 else 0) ∧
          (l.get ⟨i, hi⟩).lo < (l.get ⟨i, hi⟩).hi ∧
          (l.get ⟨i, hi⟩).hi ≤ 4096 ∧
          ∃ pte, translate ek m root (start / 4096 + i) = some pte ∧
            (l.get ⟨i, hi⟩).ppn = PageTableEntry.ppn ek pte := by
  intro fuel
  induction fuel with
  | zero =>
    intro start hf hlt hv
    omega
  | succ fuel ih =>
    intro start hf hlt hv
    have hs38 : start < 2 ^ 38 := by omega
    have hva : vaFrom start = start := by
      unfold vaFrom VA_WIDTH_SV39
      have : start < 2 ^ 39 := by omega
      omega
    have hvaend : vaFrom endv = endv := by
      unfold vaFrom VA_WIDTH_SV39
      have : endv < 2 ^ 39 := by omega
      omega
    have hfl : vaFloor start = start / 4096 := rfl
    have htrs : (translate ek m root (start / 4096)).isSome = true := by
      apply hv (start / 4096) (Nat.le_refl _)
      have h1 : start ≤ endv - 1 := by omega
      exact Nat.div_le_div_right h1
    obtain ⟨pte, htr⟩ := Option.isSome_iff_exists.mp htrs
    rcases Nat.lt_or_ge ((start / 4096 + 1) * 4096) endv with hA | hB
    · -- the buffer continues past this page: full-page slice, recurse
      have hEmin : min ((start / 4096 + 1) * 4096) endv =
          (start / 4096 + 1) * 4096 := Nat.min_eq_left (by omega)
      have hstart2 : (start / 4096 + 1) * 4096 < 2 ^ 38 := by omega
      have hlt2 : (start / 4096 + 1) * 4096 < endv := hA
      have hdivmod := Nat.div_add_mod start 4096
      have hmodlt : start % 4096 < 4096 := Nat.mod_lt _ (by omega)
      have hstep2 : (start / 4096 + 1) * 4096 - start = 4096 - start % 4096 := by
        omega
      have hf2 : endv - (start / 4096 + 1) * 4096 ≤ fuel := by omega
      have hdiv2 : (start / 4096 + 1) * 4096 / 4096 = start / 4096 + 1 := by
        omega
      have hv2 : ∀ p, (start / 4096 + 1) * 4096 / 4096 ≤ p →
          p ≤ (endv - 1) / 4096 → (translate ek m root p).isSome = true := by
        intro p hp1 hp2
        apply hv p _ hp2
        omega
      obtain ⟨l2, hl2, hsum2, hlen2, hidx2⟩ := ih ((start / 4096 + 1) * 4096)
        hf2 hlt2 hv2
      have hvu : vaToUsize ((start / 4096 + 1) * 4096) =
          (start / 4096 + 1) * 4096 := by
        unfold vaToUsize VA_WIDTH_SV39
        rw [if_neg]
        omega
      have hpo : pageOffset ((start / 4096 + 1) * 4096) = 0 := by
        unfold pageOffset PAGE_SIZE
        omega
      have hstep : tbbGo ek m root endv (fuel + 1) start =
          some (BufSlice.mk (PageTableEntry.ppn ek pte) (pageOffset start)
            PAGE_SIZE :: l2) := by
        simp only [tbbGo]
        rw [if_pos hlt, hva, hfl]
        rw [htr]
        simp only [hvaend, PAGE_SIZE]
        rw [hEmin, hvu, hl2, hpo]
        rfl
      refine ⟨_, hstep, ?_, ?_, ?_⟩
      · simp only [List.map_cons, List.sum_cons, hsum2]
        unfold pageOffset PAGE_SIZE
        omega
      · simp only [List.length_cons, hlen2, hdiv2]
        have hle : start / 4096 + 1 ≤ (endv - 1) / 4096 := by omega
        omega
      · intro i hi
        cases i with
        | zero =>
          refine ⟨?_, ?_, ?_, pte, ?_, rfl⟩
          · simp only [List.get]
            unfold pageOffset PAGE_SIZE
            simp
          · simp only [List.get]
            unfold pageOffset PAGE_SIZE
            omega
          · simp only [List.get, PAGE_SIZE]
            omega
          · rw [Nat.add_zero]
            exact htr
        | succ i =>
          have hi2 : i < l2.length := by
            simpa using hi
          obtain ⟨hlo, hlohi, hhiub, pte2, htr2, hppn2⟩ := hidx2 i hi2
          rw [hdiv2] at htr2
          refine ⟨?_, hlohi, hhiub, pte2, ?_, hppn2⟩
          · show (l2.get ⟨i, hi2⟩).lo = if i + 1 = 0 then start % 4096 else 0
            rw [if_neg (Nat.succ_ne_zero i), hlo]
            have hz : (start / 4096 + 1) * 4096 % 4096 = 0 := by omega
            cases i with
            | zero => simp [hz]
            | succ i => simp
          · rw [show start / 4096 + (i + 1) = start / 4096 + 1 + i from by
              omega]
            exact htr2
    · -- the buffer ends inside this page: last slice
      have hEmin : min ((start / 4096 + 1) * 4096) endv = endv :=
        Nat.min_eq_right hB
      have hdivmod := Nat.div_add_mod start 4096
      have hdivmode := Nat.div_add_mod endv 4096
      have hmodlt : start % 4096 < 4096 := Nat.mod_lt _ (by omega)
      have hvu : vaToUsize endv = endv := by
        unfold vaToUsize VA_WIDTH_SV39
        rw [if_neg]
        omega
      have hrest : tbbGo ek m root endv fuel endv = some [] :=
        tbbGo_done ek m root endv fuel endv (by omega)
      have hlastdiv : (endv - 1) / 4096 = start / 4096 := by omega
      by_cases hz : endv % 4096 = 0
      · -- the end is page-aligned, so it is the next page boundary
        have hend4 : endv = (start / 4096 + 1) * 4096 := by omega
        have hpo : pageOffset endv = 0 := by
          unfold pageOffset PAGE_SIZE
          omega
        have hstep : tbbGo ek m root endv (fuel + 1) start =
            some [BufSlice.mk (PageTableEntry.ppn ek pte) (pageOffset start)
              PAGE_SIZE] := by
          simp only [tbbGo]
          rw [if_pos hlt, hva, hfl]
          rw [htr]
          simp only [hvaend, PAGE_SIZE]
          rw [hEmin, hvu, hrest, hpo]
          rfl
        refine ⟨_, hstep, ?_, ?_, ?_⟩
        · simp only [List.map_cons, List.map_nil, List.sum_cons,
            List.sum_nil]
          unfold pageOffset PAGE_SIZE
          omega
        · simp only [List.length_singleton, hlastdiv]
          omega
        · intro i hi
          have hi0 : i = 0 := by
            simp only [List.length_singleton] at hi
            omega
          subst hi0
          refine ⟨?_, ?_, ?_, pte, ?_, rfl⟩
          · simp only [List.get]
            unfold pageOffset PAGE_SIZE
            simp
          · simp only [List.get]
            unfold pageOffset PAGE_SIZE
            omega
          · simp only [List.get, PAGE_SIZE]
            omega
          · rw [Nat.add_zero]
            exact htr
      · -- the end is inside the page
        have hpo : pageOffset endv ≠ 0 := by
          unfold pageOffset PAGE_SIZE
          omega
        have hstep : tbbGo ek m root endv (fuel + 1) start =
            some [BufSlice.mk (PageTableEntry.ppn ek pte) (pageOffset start)
              (pageOffset endv)] := by
          simp only [tbbGo]
          rw [if_pos hlt, hva, hfl]
          rw [htr]
          simp only [hvaend, PAGE_SIZE]
          rw [hEmin, hvu, hrest, if_neg hpo]
        have hsame : endv / 4096 = start / 4096 := by omega
        refine ⟨_, hstep, ?_, ?_, ?_⟩
        · simp only [List.map_cons, List.map_nil, List.sum_cons,
            List.sum_nil]
          unfold pageOffset PAGE_SIZE
          omega
        · simp only [List.length_singleton, hlastdiv]
          omega
        · intro i hi
          have hi0 : i = 0 := by
            simp only [List.length_singleton] at hi
            omega
          subst hi0
          refine ⟨?_, ?_, ?_, pte, ?_, rfl⟩
          · simp only [List.get]
            unfold pageOffset PAGE_SIZE
            simp
          · simp only [List.get]
            unfold pageOffset PAGE_SIZE
            omega
          · simp only [List.get]
            unfold pageOffset PAGE_SIZE
            omega
          · rw [Nat.add_zero]
            exact htr

/-- C10 amended: the characterization holds for buffers that lie below
    `2^38` (the SV39 sign-extension threshold of the `VirtAddr → usize`
    conversion used to advance the loop cursor), given enough loop fuel and
    valid translations for every touched page: the slices' lengths sum to
    `len`, the first slice begins at `ptr`'s page offset, every later slice
    begins at offset 0 of the next consecutive virtual page, and no slice
    crosses a page boundary. -/
theorem translated_byte_buffer_spec (ek : Nat) (m : Mem)
    (token ptr len fuel : Nat) (hlen : 0 < len)
    (hhigh : ptr + len < 2 ^ 38) (hfuel : len ≤ fuel)
    (hvalid : ∀ p, ptr / PAGE_SIZE ≤ p → p ≤ (ptr + len - 1) / PAGE_SIZE →
      ∃ pte, translate ek m (fromToken ek token) p = some pte ∧
        pte.isValid = true) :
    ∃ l, translated_byte_buffer ek m token ptr len fuel = some l ∧
      (l.map (fun s => s.hi - s.lo)).sum = len ∧
      l.length = (ptr + len - 1) / PAGE_SIZE - ptr / PAGE_SIZE + 1 ∧
      ∀ (i : Nat) (hi : i < l.length),
        ((l.get ⟨i, hi⟩).lo = if i = 0 then ptr % PAGE_SIZE else 0) ∧
        (l.get ⟨i, hi⟩).lo < (l.get ⟨i, hi⟩).hi ∧
        (l.get ⟨i, hi⟩).hi ≤ PAGE_SIZE ∧
        ∃ pte, translate ek m (fromToken ek token) (ptr / PAGE_SIZE + i) =
          some pte ∧ (l.get ⟨i, hi⟩).ppn = PageTableEntry.ppn ek pte := by
  have hind := tbbGo_ind ek m (fromToken ek token) (ptr + len) (by omega)
    fuel ptr (by omega) (by omega)
    (fun p hp1 hp2 => by
      obtain ⟨pte, htr, _⟩ := hvalid p hp1 hp2
      simp [htr])
  obtain ⟨l, hl, hsum, hlenl, hidx⟩ := hind
  refine ⟨l, hl, by rw [hsum]; omega, hlenl, hidx⟩

/-- A page table (root 0x80240) mapping vpns `2^26` and `2^26 + 1` — the
    pages of virtual addresses from `2^38` up — to frames 0x80250 and
    0x80251 with flags V|R|W|U. -/
def c10Mem : Mem :=
  memWrite (memWrite (memWrite (memWrite memZero
    0x80240 256 (PageTableEntry.new 0x80241 1).bits)
    0x80241 0 (PageTableEntry.new 0x80242 1).bits)
    0x80242 0 (PageTableEntry.new 0x80250 23).bits)
    0x80242 1 (PageTableEntry.new 0x80251 23).bits

/-- The satp token for root 0x80240. -/
def c10Token : Nat := 8 <<< 60 ||| 0x80240

/-- C10 counterexample: a two-page buffer at `ptr = 2^38` whose pages both
    translate to valid entries, yet `translated_byte_buffer` returns a
    single 4096-byte slice — the lengths sum to 4096, not `len = 8192` —
    because advancing the cursor sign-extends `2^38 + 4096` to a huge
    `usize` and the loop stops. -/
theorem tbb_sign_extension_truncates :
    (translate 0x80200000 c10Mem (fromToken 0x80200000 c10Token)
      0x4000000).map (fun pte => pte.isValid) = some true ∧
    (translate 0x80200000 c10Mem (fromToken 0x80200000 c10Token)
      0x4000001).map (fun pte => pte.isValid) = some true ∧
    translated_byte_buffer 0x80200000 c10Mem c10Token 0x4000000000 8192 8 =
      some [⟨0x80250, 0, 4096⟩] ∧
    (translated_byte_buffer 0x80200000 c10Mem c10Token 0x4000000000 8192
      8).map (fun l => (l.map (fun s => s.hi - s.lo)).sum) = some 4096 ∧
    (4096 : Nat) ≠ 8192 := by
  refine ⟨by decide, by decide, by decide, by decide, by decide⟩

/-- A page table like `c10Mem` but mapping the low vpns 5 and 6. -/
def c10MemW : Mem :=
  memWrite (memWrite (memWrite (memWrite memZero
    0x80240 0 (PageTableEntry.new 0x80241 1).bits)
    0x80241 0 (PageTableEntry.new 0x80242 1).bits)
    0x80242 5 (PageTableEntry.new 0x80250 23).bits)
    0x80242 6 (PageTableEntry.new 0x80251 23).bits

/-- C10 witness: a 5000-byte buffer at 0x5064 (inside vpn 5, reaching into
    vpn 6) chops into two slices whose lengths sum to 5000. -/
theorem translated_byte_buffer_spec_witness :
    (translated_byte_buffer 0x80200000 c10MemW c10Token 0x5064 5000
      5000).map (fun l => (l.map (fun s => s.hi - s.lo)).sum) = some 5000 ∧
    (translated_byte_buffer 0x80200000 c10MemW c10Token 0x5064 5000
      5000).map (fun l => l.length) = some 2 := by
  obtain ⟨l, hl, hsum, hlenl, hidx⟩ := translated_byte_buffer_spec
    0x80200000 c10MemW c10Token 0x5064 5000 5000 (by decide) (by decide)
    (by decide)
    (by
      intro p hp1 hp2
      have h5 : 5 ≤ p := hp1
      have h6 : p ≤ 6 := hp2
      rcases (by omega : p = 5 ∨ p = 6) with rfl | rfl
      · exact ⟨PageTableEntry.new 0x80250 23, by decide, by decide⟩
      · exact ⟨PageTableEntry.new 0x80251 23, by decide, by decide⟩)
  constructor
  · rw [hl]
    simp only [Option.map_some', hsum]
  · rw [hl]
    simp only [Option.map_some', hlenl]
    decide

end RCore
